import Mathlib

/-!
Verification of the industrion-scraping pipeline.

This file gives a shallow embedding of the pipeline's core components
(`jobs_pipeline.py`, `utils/parsing.py`, `utils/cache.py`, `utils/llm_client.py`,
`utils/firecrawl_client.py`, `utils/ats/bamboohr.py`, `api/pipeline.py`,
`api/run_local.py`) and proves or refutes the frozen specification claims.

Modelling conventions:
- Python strings are Lean `String`s; machine floats are exact rationals `ℚ`
  (all claims concern exact small values, never rounding).
- Fallible calls (HTTP fetches, oracle completions) are `Except String`-valued
  environment parameters; an exception is an `Except.error`.
- Stateful code threads an explicit state record; the thread pool's `map`
  collects results in submission order (the behaviour `executor.map` guarantees).
- Python stdlib helpers called by the code (`urllib.parse.urljoin`/`urlparse`,
  `hashlib.sha256`, `str.strip`, `float(...)`) are embedded following their
  reference implementations, restricted to finite decimal literals for `float`
  and omitting the `;params` component of URLs (never produced by this code).
-/

namespace Industrion

/-! ## Basic string helpers (Python `str` methods) -/

/-- Python `str.lower` (ASCII case folding, which is all the code relies on). -/
def lowerStr (s : String) : String :=
  ⟨s.data.map Char.toLower⟩

/-- Python whitespace test used by `str.strip` / `str.lstrip`. -/
def isPySpace (c : Char) : Bool :=
  c == ' ' || c == '\t' || c == '\n' || c == '\r' || c == '\x0b' || c == '\x0c'

/-- Python `str.strip()` with no arguments. -/
def stripStr (s : String) : String :=
  ⟨((s.data.dropWhile isPySpace).reverse.dropWhile isPySpace).reverse⟩

/-- Python `str.lstrip()` with no arguments. -/
def lstripStr (s : String) : String :=
  ⟨s.data.dropWhile isPySpace⟩

/-- Membership test for Python's `needle in haystack` on char lists. -/
def listContainsSub (needle : List Char) : List Char → Bool
  | [] => needle.isEmpty
  | c :: cs => needle.isPrefixOf (c :: cs) || listContainsSub needle cs

/-- Python `needle in haystack` for strings. -/
def strContainsSub (needle hay : String) : Bool :=
  listContainsSub needle.data hay.data

/-- First `n` characters of a string, Python `s[:n]`. -/
def takeStr (n : Nat) (s : String) : String :=
  ⟨s.data.take n⟩

/-- Python `s.startswith(pre)` (kernel-reducible form). -/
def strStartsWith (s pre : String) : Bool :=
  pre.data.isPrefixOf s.data

/-- Python `s.endswith(suf)` (kernel-reducible form). -/
def strEndsWith (s suf : String) : Bool :=
  suf.data.isSuffixOf s.data

/-! ## URL model: `urllib.parse.urlsplit` / `urlunsplit` / `urljoin`

Embedded from CPython's `urllib/parse.py`, without the `;params` component
(equivalent for joining) and without bytes/IDNA handling. -/

structure UrlParts where
  scheme : String
  netloc : String
  path : String
  query : String
  fragment : String
deriving DecidableEq, Repr

def isSchemeChar (c : Char) : Bool :=
  c.isAlpha || c.isDigit || c == '+' || c == '-' || c == '.'

/-- Split a leading `scheme:` if present and well-formed (CPython `urlsplit`). -/
def splitSchemeAux (acc : List Char) : List Char → Option (List Char × List Char)
  | [] => none
  | c :: cs =>
      if c == ':' then some (acc.reverse, cs)
      else splitSchemeAux (c :: acc) cs

def splitScheme (s : List Char) : Option (List Char × List Char) :=
  match splitSchemeAux [] s with
  | none => none
  | some (sch, rest) =>
      match sch with
      | [] => none
      | c0 :: _ =>
          if c0.isAlpha && sch.all isSchemeChar then
            some (sch.map Char.toLower, rest)
          else none

/-- CPython strips C0 controls and spaces at the ends and removes tab/CR/LF. -/
def isC0OrSpace (c : Char) : Bool := c.toNat ≤ 32

def cleanUrlChars (s : List Char) : List Char :=
  (((s.dropWhile isC0OrSpace).reverse.dropWhile isC0OrSpace).reverse).filter
    (fun c => c != '\t' && c != '\r' && c != '\n')

def netlocEnd (c : Char) : Bool := c == '/' || c == '?' || c == '#'

/-- Split at the first occurrence of `sep`, if any. -/
def splitFirstChar (sep : Char) : List Char → Option (List Char × List Char)
  | [] => none
  | c :: cs =>
      if c == sep then some ([], cs)
      else match splitFirstChar sep cs with
        | none => none
        | some (l, r) => some (c :: l, r)

/-- `urllib.parse.urlsplit url scheme=default` (allow_fragments = True). -/
def urlsplit (url : String) (defaultScheme : String) : UrlParts :=
  let s0 := cleanUrlChars url.data
  let (scheme, rest) :=
    match splitScheme s0 with
    | some (sch, r) => (String.mk sch, r)
    | none => (defaultScheme, s0)
  let (netloc, rest) :=
    match rest with
    | '/' :: '/' :: r => (String.mk (r.takeWhile (fun c => !netlocEnd c)),
                          r.dropWhile (fun c => !netlocEnd c))
    | r => ("", r)
  let (rest, fragment) :=
    match splitFirstChar '#' rest with
    | some (l, r) => (l, String.mk r)
    | none => (rest, "")
  let (path, query) :=
    match splitFirstChar '?' rest with
    | some (l, r) => (String.mk l, String.mk r)
    | none => (String.mk rest, "")
  ⟨scheme, netloc, path, query, fragment⟩

/-- `urllib.parse.urlunsplit`. -/
def urlunsplit (p : UrlParts) : String :=
  let url := p.path
  let url :=
    if p.netloc != "" || (url != "" && strStartsWith url "//") then
      (if url != "" && !strStartsWith url "/" then "//" ++ p.netloc ++ "/" ++ url
       else "//" ++ p.netloc ++ url)
    else url
  let url := if p.scheme != "" then p.scheme ++ ":" ++ url else url
  let url := if p.query != "" then url ++ "?" ++ p.query else url
  if p.fragment != "" then url ++ "#" ++ p.fragment else url

def usesRelative : List String :=
  ["", "ftp", "http", "gopher", "nntp", "imap", "wais", "file", "https",
   "shttp", "mms", "prospero", "rtsp", "rtspu", "sftp", "svn", "svn+ssh",
   "ws", "wss"]

def usesNetloc : List String :=
  ["", "ftp", "http", "gopher", "nntp", "telnet", "imap", "wais", "file",
   "mms", "https", "shttp", "snews", "prospero", "rtsp", "rtspu", "rsync",
   "svn", "svn+ssh", "sftp", "nfs", "git", "git+ssh", "ws", "wss",
   "itms-services"]

/-- Segment resolution of CPython `urljoin` (`.` and `..` handling). -/
def resolveSegments (segments : List String) : List String :=
  segments.foldl
    (fun resolved seg =>
      if seg == ".." then resolved.dropLast
      else if seg == "." then resolved
      else resolved ++ [seg])
    []

/-- Split a char list on a character, CPython `str.split(sep)`. -/
def splitOnChar (sep : Char) : List Char → List (List Char)
  | [] => [[]]
  | c :: cs =>
      if c == sep then [] :: splitOnChar sep cs
      else
        match splitOnChar sep cs with
        | [] => [[c]]
        | l :: ls => (c :: l) :: ls

def splitStrOnChar (sep : Char) (s : String) : List String :=
  (splitOnChar sep s.data).map String.mk

def joinWith (sep : String) : List String → String
  | [] => ""
  | [x] => x
  | x :: xs => x ++ sep ++ joinWith sep xs

/-- `urllib.parse.urljoin base url` (CPython, RFC 3986 variant). -/
def urljoin (base url : String) : String :=
  if base == "" then url
  else if url == "" then base
  else
    let b := urlsplit base ""
    let u := urlsplit url b.scheme
    if u.scheme != b.scheme || !usesRelative.contains u.scheme then url
    else
      let netloc :=
        if usesNetloc.contains u.scheme then
          (if u.netloc != "" then none else some b.netloc)
        else some u.netloc
      match netloc with
      | none => urlunsplit ⟨u.scheme, u.netloc, u.path, u.query, u.fragment⟩
      | some netloc =>
        if u.path == "" then
          let query := if u.query == "" then b.query else u.query
          urlunsplit ⟨u.scheme, netloc, b.path, query, u.fragment⟩
        else
          let baseParts := splitStrOnChar '/' b.path
          let baseParts :=
            if baseParts.getLast? != some "" then baseParts.dropLast else baseParts
          let segments :=
            if strStartsWith u.path "/" then splitStrOnChar '/' u.path
            else
              let segs := baseParts ++ splitStrOnChar '/' u.path
              -- CPython: segments[1:-1] = filter(None, segments[1:-1])
              match segs with
              | [] => []
              | s0 :: rest =>
                match rest.getLast? with
                | none => [s0]
                | some last => s0 :: (rest.dropLast.filter (· != "")) ++ [last]
          let resolved := resolveSegments segments
          let resolved :=
            if segments.getLast? == some "." || segments.getLast? == some ".." then
              resolved ++ [""]
            else resolved
          let path := joinWith "/" resolved
          let path := if path == "" then "/" else path
          urlunsplit ⟨u.scheme, netloc, path, u.query, u.fragment⟩

/-! ## `utils/parsing.py` -/

/-- Scheme of an absolutized URL as computed by `absolutize_and_dedupe_urls`:
`urlparse(abs_u).scheme.lower()` (already lowercased by `urlsplit`). -/
def schemeOf (u : String) : String :=
  (urlsplit u "").scheme

def isHttpScheme (u : String) : Bool :=
  schemeOf u == "http" || schemeOf u == "https"

/-- The pre-absolutization keep test of `absolutize_and_dedupe_urls`:
drops empty hrefs (`if not u`) and fragment-only/fragment-prefixed hrefs
(`u.lstrip().startswith("#")`). -/
def keepHref (u : String) : Bool :=
  u != "" && !strStartsWith (lstripStr u) "#"

def absolutizeAux (baseUrl : String) (seen : List String) : List String → List String
  | [] => []
  | u :: us =>
    if !keepHref u then absolutizeAux baseUrl seen us
    else
      let absU := urljoin baseUrl u
      if !isHttpScheme absU then absolutizeAux baseUrl seen us
      else if seen.contains absU then absolutizeAux baseUrl seen us
      else absU :: absolutizeAux baseUrl (absU :: seen) us

/-- `absolutize_and_dedupe_urls(urls, base_url)` from `utils/parsing.py`. -/
def absolutize_and_dedupe_urls (urls : List String) (baseUrl : String) : List String :=
  absolutizeAux baseUrl [] urls

/-! ## `hashlib.sha256(...).hexdigest()` (FIPS 180-4), over UTF-8 bytes

Words are `Nat`s reduced mod `2^32` by `m32`. -/

/-- Python `str.encode("utf-8")`: code points to UTF-8 bytes. -/
def utf8EncodeChar (c : Char) : List Nat :=
  let n := c.toNat
  if n < 128 then [n]
  else if n < 2048 then [192 ||| (n >>> 6), 128 ||| (n &&& 63)]
  else if n < 65536 then
    [224 ||| (n >>> 12), 128 ||| ((n >>> 6) &&& 63), 128 ||| (n &&& 63)]
  else
    [240 ||| (n >>> 18), 128 ||| ((n >>> 12) &&& 63),
     128 ||| ((n >>> 6) &&& 63), 128 ||| (n &&& 63)]

def utf8Encode (s : String) : List Nat :=
  (s.data.map utf8EncodeChar).flatten

def m32 (n : Nat) : Nat := n % 4294967296

def rotr32 (k x : Nat) : Nat := m32 ((x >>> k) ||| (x <<< (32 - k)))

def chF (e f g : Nat) : Nat := (e &&& f) ^^^ ((e ^^^ 4294967295) &&& g)

def majF (a b c : Nat) : Nat := (a &&& b) ^^^ (a &&& c) ^^^ (b &&& c)

def bsig0 (x : Nat) : Nat := rotr32 2 x ^^^ rotr32 13 x ^^^ rotr32 22 x

def bsig1 (x : Nat) : Nat := rotr32 6 x ^^^ rotr32 11 x ^^^ rotr32 25 x

def ssig0 (x : Nat) : Nat := rotr32 7 x ^^^ rotr32 18 x ^^^ (x >>> 3)

def ssig1 (x : Nat) : Nat := rotr32 17 x ^^^ rotr32 19 x ^^^ (x >>> 10)

def kConsts : List Nat :=
  [1116352408, 1899447441, 3049323471, 3921009573,
   961987163, 1508970993, 2453635748, 2870763221,
   3624381080, 310598401, 607225278, 1426881987,
   1925078388, 2162078206, 2614888103, 3248222580,
   3835390401, 4022224774, 264347078, 604807628,
   770255983, 1249150122, 1555081692, 1996064986,
   2554220882, 2821834349, 2952996808, 3210313671,
   3336571891, 3584528711, 113926993, 338241895,
   666307205, 773529912, 1294757372, 1396182291,
   1695183700, 1986661051, 2177026350, 2456956037,
   2730485921, 2820302411, 3259730800, 3345764771,
   3516065817, 3600352804, 4094571909, 275423344,
   430227734, 506948616, 659060556, 883997877,
   958139571, 1322822218, 1537002063, 1747873779,
   1955562222, 2024104815, 2227730452, 2361852424,
   2428436474, 2756734187, 3204031479, 3329325298]

structure Hash8 where
  a : Nat
  b : Nat
  c : Nat
  d : Nat
  e : Nat
  f : Nat
  g : Nat
  h : Nat
deriving DecidableEq, Repr

def initH : Hash8 :=
  ⟨1779033703, 3144134277, 1013904242, 2773480762,
   1359893119, 2600822924, 528734635, 1541459225⟩

/-- Big-endian byte expansion of a value into `k` bytes. -/
def beBytes : Nat → Nat → List Nat
  | 0, _ => []
  | k + 1, v => beBytes k (v / 256) ++ [v % 256]

/-- SHA-256 padding: append `0x80`, zeros to 56 mod 64, 8-byte bit length. -/
def sha256pad (msg : List Nat) : List Nat :=
  let z := (119 - msg.length % 64) % 64
  msg ++ [128] ++ List.replicate z 0 ++ beBytes 8 (8 * msg.length)

def wordsOfBytes : List Nat → List Nat
  | b0 :: b1 :: b2 :: b3 :: rest =>
      (((b0 * 256 + b1) * 256 + b2) * 256 + b3) :: wordsOfBytes rest
  | _ => []

def chunk16 (l : List Nat) : List (List Nat) :=
  match l with
  | [] => []
  | x :: xs => ((x :: xs).take 16) :: chunk16 ((x :: xs).drop 16)
termination_by l.length
decreasing_by simp [List.length_drop]; omega

/-- Message-schedule extension, most recent word first. -/
def extendWordsRev : Nat → List Nat → List Nat
  | 0, rw => rw
  | n + 1, rw =>
      let next := m32 (rw.getD 15 0 + ssig0 (rw.getD 14 0) +
                       rw.getD 6 0 + ssig1 (rw.getD 1 0))
      extendWordsRev n (next :: rw)

def schedule (w16 : List Nat) : List Nat :=
  (extendWordsRev 48 w16.reverse).reverse

def roundF (st : Hash8) (kw : Nat × Nat) : Hash8 :=
  let t1 := m32 (st.h + bsig1 st.e + chF st.e st.f st.g + kw.1 + kw.2)
  let t2 := m32 (bsig0 st.a + majF st.a st.b st.c)
  ⟨m32 (t1 + t2), st.a, st.b, st.c, m32 (st.d + t1), st.e, st.f, st.g⟩

def compressBlock (h : Hash8) (w16 : List Nat) : Hash8 :=
  let st := ((kConsts.zip (schedule w16)).foldl roundF h)
  ⟨m32 (h.a + st.a), m32 (h.b + st.b), m32 (h.c + st.c), m32 (h.d + st.d),
   m32 (h.e + st.e), m32 (h.f + st.f), m32 (h.g + st.g), m32 (h.h + st.h)⟩

def sha256Words (msg : List Nat) : List Nat :=
  let hfin := (chunk16 (wordsOfBytes (sha256pad msg))).foldl compressBlock initH
  [hfin.a, hfin.b, hfin.c, hfin.d, hfin.e, hfin.f, hfin.g, hfin.h]

def hexDigitChar (n : Nat) : Char :=
  if n < 10 then Char.ofNat (48 + n) else Char.ofNat (87 + n)

/-- Fixed-width lowercase hex rendering of a word. -/
def toHexFixed : Nat → Nat → List Char
  | 0, _ => []
  | d + 1, n => toHexFixed d (n / 16) ++ [hexDigitChar (n % 16)]

/-- `hashlib.sha256(s.encode("utf-8")).hexdigest()`. -/
def sha256hex (s : String) : String :=
  ⟨((sha256Words (utf8Encode s)).map (toHexFixed 8)).flatten⟩

/-! ## `fingerprint` from `jobs_pipeline.py` -/

/-- The f-string `f"{canonical_url}||{title}||{company}"`. -/
def fpConcat (canonicalUrl title company : String) : String :=
  canonicalUrl ++ "||" ++ title ++ "||" ++ company

/-- `fingerprint(canonical_url, title, company)` from `jobs_pipeline.py`. -/
def fingerprint (canonicalUrl title company : String) : String :=
  sha256hex (fpConcat canonicalUrl title company)

/-! ## `utils/parsing.py`: field postprocessing -/

/-- `normalize_job_type(value)`. -/
def normalize_job_type (value : String) : Option String :=
  if value == "" then none
  else
    let v := lowerStr (stripStr value)
    if ["full-time", "full time", "permanent"].any (fun s => strContainsSub s v) then
      some "Full Time"
    else if ["part-time", "part time"].any (fun s => strContainsSub s v) then
      some "Part Time"
    else if ["intern", "co-op", "internship"].any (fun s => strContainsSub s v) then
      some "Internship"
    else none

/-- Word characters for the regex `\b` boundary (`[A-Za-z0-9_]`). -/
def isWordChar (c : Char) : Bool :=
  c.isAlphanum || c == '_'

/-- Does `pat` occur at the head of `s` with a word boundary right after it? -/
def wordMatchHere (pat s : List Char) : Bool :=
  pat.isPrefixOf s &&
    (match s.drop pat.length with
     | [] => true
     | c :: _ => !isWordChar c)

/-- Regex search for `\b(pat₁|pat₂|…)\b` over a char list; `prevWord` tracks
whether the previous character was a word character. All patterns start and
end with word characters, so `\b` is "previous char non-word, next non-word". -/
def wordScan (pats : List (List Char)) (prevWord : Bool) : List Char → Bool
  | [] => false
  | c :: cs =>
      ((!prevWord) && pats.any (fun p => wordMatchHere p (c :: cs))) ||
        wordScan pats (isWordChar c) cs

/-- `detect_remote_from_text(text)`: case-insensitive word-bounded search for
`remote`, `work from anywhere`, `wfh`, `hybrid`. -/
def detect_remote_from_text (text : String) : Bool :=
  if text == "" then false
  else
    wordScan ([( "remote" : String), "work from anywhere", "wfh", "hybrid"].map
      (fun p => p.data)) false (lowerStr text).data

/-- `sanitize_application_link(link, job_url, canonical_url)`. -/
def sanitize_application_link (link : Option String) (jobUrl canonicalUrl : String) :
    String :=
  let fallbackLink := if canonicalUrl != "" then canonicalUrl else jobUrl
  let candidate := stripStr (link.getD "")
  if candidate != "" then
    let parsed := urlsplit candidate ""
    if (parsed.scheme == "http" || parsed.scheme == "https") && parsed.netloc != "" then
      candidate
    else if parsed.scheme == "mailto" then candidate
    else if parsed.scheme == "" then
      let base := if canonicalUrl != "" then canonicalUrl else jobUrl
      if base != "" then urljoin base candidate else candidate
    else fallbackLink
  else fallbackLink

/-- The `fields` dict once schema-validated (`schemas/job_fields.schema.json`):
string/boolean/number fields, each possibly `null`/absent. -/
structure JobFields where
  title : Option String
  company_name : Option String
  location : Option String
  remote_ok : Option Bool
  job_type : Option String
  description_html : Option String
  min_salary : Option ℚ
  max_salary : Option ℚ
  application_link : Option String
deriving DecidableEq, Repr

/-- `postprocess_fields(fields, company_override, page_html, job_url, canonical_url)`. -/
def postprocess_fields (fields : JobFields) (companyOverride : Option String)
    (pageHtml : String) (jobUrl canonicalUrl : String) : JobFields :=
  let fields :=
    if fields.remote_ok == none then
      { fields with remote_ok := some (detect_remote_from_text pageHtml) }
    else fields
  let fields :=
    match companyOverride with
    | some c => if c != "" then { fields with company_name := some c } else fields
    | none => fields
  let fields :=
    match normalize_job_type (fields.job_type.getD "") with
    | some jt => { fields with job_type := some jt }
    | none => fields
  { fields with
      application_link :=
        some (sanitize_application_link fields.application_link jobUrl canonicalUrl) }

/-- A spreadsheet cell: the row mixes strings and numbers. -/
inductive Cell where
  | str (v : String)
  | num (v : ℚ)
deriving DecidableEq, Repr

/-- `to_sheet_row(fields)`. -/
def to_sheet_row (fields : JobFields) : List Cell :=
  [Cell.str (fields.title.getD ""),
   Cell.str (fields.company_name.getD ""),
   Cell.str (fields.location.getD ""),
   Cell.str (if fields.remote_ok.getD false then "TRUE" else "FALSE"),
   Cell.str (fields.job_type.getD ""),
   Cell.str (fields.description_html.getD ""),
   (match fields.min_salary with | none => Cell.str "" | some q => Cell.num q),
   (match fields.max_salary with | none => Cell.str "" | some q => Cell.num q),
   Cell.str (fields.application_link.getD "")]

/-! ## `utils/cache.py`: the `jobs` table of the SQLite cache -/

structure CacheRecord where
  url : String
  canonical_url : Option String
  title : Option String
  company : Option String
  fingerprint : Option String
deriving DecidableEq, Repr

/-- `Cache.is_job_seen(url)`. -/
def is_job_seen (cache : List CacheRecord) (url : String) : Bool :=
  cache.any (fun r => r.url == url)

/-- `Cache.is_fingerprint_seen(fp)`. -/
def is_fingerprint_seen (cache : List CacheRecord) (fp : String) : Bool :=
  cache.any (fun r => r.fingerprint == some fp)

/-- `Cache.mark_job_seen(...)`: `INSERT OR REPLACE` keyed by `url`. -/
def mark_job_seen (cache : List CacheRecord) (url : String)
    (canonicalUrl title company fp : Option String) : List CacheRecord :=
  ⟨url, canonicalUrl, title, company, fp⟩ :: cache.filter (fun r => r.url != url)

/-! ## Candidate selection (`run_pipeline`, tiers 1–3) -/

/-- An anchor `{href, text}` as produced by `extract_anchors_from_page_data`. -/
structure Anchor where
  href : String
  text : String
deriving DecidableEq, Repr

/-- Tier 1: map oracle-selected indices back to hrefs; non-integers are
excluded by the `isinstance` check (indices are `Int` here) and out-of-range
indices are discarded. -/
def tier1RawUrls (limitedAnchors : List Anchor) (selectedIndices : List Int) :
    List String :=
  selectedIndices.filterMap (fun idx =>
    if 0 ≤ idx && idx < (limitedAnchors.length : Int) then
      some ((limitedAnchors.getD idx.toNat ⟨"", ""⟩).href)
    else none)

def jobKeywords : List String :=
  ["/careers/", "/career/", "/jobs/", "/job/", "/positions/", "/position/",
   "/opportunities/", "/opportunity/", "/opening/", "/openings/",
   "greenhouse.io", "lever.co", "ashbyhq.com", "workable.com"]

def excludeSubstrings : List String :=
  ["?", "#", "/teams", "/departments", "/locations", "/search", "/filters",
   "/pages/", "/page/", "/category/", "/categories/"]

def applyPhrases : List String :=
  ["apply", "view role", "view job", "see role", "see job"]

/-- Tier 2: the keyword/apply-phrase heuristic over the limited anchors. -/
def tier2Heuristic (limitedAnchors : List Anchor) : List String :=
  limitedAnchors.foldl
    (fun acc a =>
      let href := a.href
      let text := lowerStr a.text
      if href == "" then acc
      else
        let hrefL := lowerStr href
        if jobKeywords.any (fun x => strContainsSub x hrefL) &&
            !(excludeSubstrings.any (fun x => strContainsSub x hrefL)) then
          acc ++ [href]
        else if applyPhrases.any (fun t => strContainsSub t text) then
          acc ++ [href]
        else acc)
    []

def boardHosts : List String :=
  ["greenhouse.io", "lever.co", "ashbyhq.com", "workable.com", "jobs.ashbyhq.com"]

/-- Tier 3 board detection: anchors linking to a known ATS-board hostname,
absolutized against the careers URL. -/
def tier3BoardLinks (limitedAnchors : List Anchor) (careersUrl : String) :
    List String :=
  absolutize_and_dedupe_urls
    (((limitedAnchors.map (fun a => a.href)).filter
        (fun h => boardHosts.any (fun b => strContainsSub b (lowerStr h)))).filter
      (fun u => u != ""))
    careersUrl

def boardApplyPhrases : List String :=
  ["apply", "view job", "view role", "see job", "job details"]

def boardPathSegments : List String :=
  ["/job/", "/jobs/", "/positions/", "/careers/"]

/-- Tier 3: the heuristic run on the fetched board page's anchors. -/
def tier3BoardRaw (boardAnchors : List Anchor) : List String :=
  boardAnchors.foldl
    (fun acc a =>
      let href := a.href
      let text := lowerStr a.text
      if href == "" then acc
      else
        let hrefL := lowerStr href
        if boardApplyPhrases.any (fun t => strContainsSub t text) &&
            strContainsSub "/job" hrefL then
          acc ++ [href]
        else if boardPathSegments.any (fun seg => strContainsSub seg hrefL) then
          acc ++ [href]
        else acc)
    []

/-- The observable outcome of candidate selection: which fallback tiers ran
and the final candidate list. -/
structure SelectionTrace where
  tier2Ran : Bool
  tier3Ran : Bool
  jobUrls : List String
deriving DecidableEq, Repr

/-- The selection logic of `run_pipeline` (lines 149–227): Tier 1 indices →
heuristic fallback → ATS-board re-scrape. `boardFetch` models
`firecrawl.fetch_page` + `extract_anchors_from_page_data` on the board URL;
an `Except.error` is the caught `ats_board_error` exception. -/
def selectCandidates (limitedAnchors : List Anchor) (selectedIndices : List Int)
    (careersUrl : String) (boardFetch : String → Except String (List Anchor)) :
    SelectionTrace :=
  let rawUrls := tier1RawUrls limitedAnchors selectedIndices
  let tier2Ran := rawUrls.isEmpty
  let rawUrls :=
    if rawUrls.isEmpty then
      let heuristicMatches := tier2Heuristic limitedAnchors
      if !heuristicMatches.isEmpty then heuristicMatches else rawUrls
    else rawUrls
  let jobUrls := absolutize_and_dedupe_urls rawUrls careersUrl
  let tier3Ran := jobUrls.isEmpty
  let jobUrls :=
    if jobUrls.isEmpty then
      match tier3BoardLinks limitedAnchors careersUrl with
      | [] => jobUrls
      | fallbackBoard :: _ =>
          match boardFetch fallbackBoard with
          | .error _ => jobUrls
          | .ok boardAnchors =>
              absolutize_and_dedupe_urls (tier3BoardRaw (boardAnchors.take 200))
                fallbackBoard
    else jobUrls
  ⟨tier2Ran, tier3Ran, jobUrls⟩

/-! ## Per-candidate processing (`process_job`) and the source loop -/

inductive ErrorScope where
  | careers
  | job
deriving DecidableEq, Repr

/-- An `ErrorEntry` `{scope, url, message}` appended to `errors`. -/
structure ErrorEntry where
  scope : ErrorScope
  url : String
  message : String
deriving DecidableEq, Repr

/-- The `totals` counters of `run_pipeline`. -/
structure RunTotals where
  careers_processed : Nat
  job_urls_found : Nat
  rows_appended : Nat
  duplicates : Nat
  errors : Nat
deriving DecidableEq, Repr

/-- Mutable state shared across workers and sources: the persisted cache,
the counters and the accumulated error entries. -/
structure PipeState where
  cache : List CacheRecord
  totals : RunTotals
  errorLog : List ErrorEntry
deriving DecidableEq, Repr

/-- Result of `firecrawl.fetch_page` as consumed by `process_job`. -/
structure FetchedPage where
  html : String
  canonical : Option String
deriving DecidableEq, Repr

/-- Result of `BambooHRParser.parse_job`: `fields` is `none` when the parsed
`"fields"` entry is not a dict (`isinstance` check in `process_job`). -/
structure BambooParsed where
  fields : Option JobFields
  canonical : Option String
  page_html : String
deriving DecidableEq, Repr

/-- External effects available to one candidate's pipeline. Each fallible
call is `Except`-valued; `Except.error` models a raised exception. -/
structure JobEnv where
  bambooCanHandle : String → Bool
  bambooParse : String → Except String BambooParsed
  fetchPage : String → Except String FetchedPage
  llmFields : String → FetchedPage → Except String JobFields

/-- Python `a or b` where `a` is an optional string and `""` is falsy. -/
def orCanonical (v : Option String) (current : String) : String :=
  match v with
  | some c => if c != "" then c else current
  | none => current

/-- The extraction portion of `process_job` (lines 243–310): the BambooHR
deterministic tier with its inner exception catch, then the generic fetch +
oracle tier. Returns `(fields, canonical, page_html)` or the raised error. -/
def extractJobFields (env : JobEnv) (jobUrl : String) :
    Except String (JobFields × String × String) :=
  let canonical := jobUrl
  let bambooResult : Option (JobFields × String × String) :=
    if env.bambooCanHandle jobUrl then
      match env.bambooParse jobUrl with
      | .error _ => none
      | .ok parsed =>
          match parsed.fields with
          | some f => some (f, orCanonical parsed.canonical canonical, parsed.page_html)
          | none => none
    else none
  match bambooResult with
  | some r => .ok r
  | none =>
      match env.fetchPage jobUrl with
      | .error e => .error e
      | .ok page =>
          match env.llmFields jobUrl page with
          | .error e => .error e
          | .ok f => .ok (f, orCanonical page.canonical canonical, page.html)

/-- `process_job(job_url)` (lines 238–339): the full worker body with its
candidate-boundary exception handler. Returns the new shared state and the
row (`None` on skip, duplicate or error). -/
def process_job (env : JobEnv) (resume : Bool) (companyOverride : Option String)
    (collectErrors : Bool) (st : PipeState) (jobUrl : String) :
    PipeState × Option (List Cell) :=
  if resume && is_job_seen st.cache jobUrl then (st, none)
  else
    match extractJobFields env jobUrl with
    | .error e =>
        ({ st with
            totals := { st.totals with errors := st.totals.errors + 1 }
            errorLog :=
              if collectErrors then st.errorLog ++ [⟨ErrorScope.job, jobUrl, e⟩]
              else st.errorLog },
         none)
    | .ok (fields0, canonical, pageHtml) =>
        let fields := postprocess_fields fields0 companyOverride pageHtml jobUrl canonical
        let row := to_sheet_row fields
        let fp := fingerprint canonical (fields.title.getD "") (fields.company_name.getD "")
        if is_fingerprint_seen st.cache fp then
          ({ st with totals := { st.totals with duplicates := st.totals.duplicates + 1 } },
           none)
        else
          ({ st with
              cache := mark_job_seen st.cache jobUrl (some canonical) fields.title
                fields.company_name (some fp) },
           some row)

/-- `executor.map(process_job, job_urls)`: results collected in submission
order (the guarantee `ThreadPoolExecutor.map` provides). -/
def runBatch (env : JobEnv) (resume : Bool) (companyOverride : Option String)
    (collectErrors : Bool) (st : PipeState) :
    List String → PipeState × List (Option (List Cell))
  | [] => (st, [])
  | u :: us =>
      let (st1, r) := process_job env resume companyOverride collectErrors st u
      let (st2, rs) := runBatch env resume companyOverride collectErrors st1 us
      (st2, r :: rs)

/-- External effects of one source iteration: fetching the careers page
(composed with `extract_anchors_from_page_data`), the index-selection oracle
call, the board re-fetch, the per-job environment, and the sink append. -/
structure SourceEnv where
  fetchCareers : String → Except String (List Anchor)
  oracleIndices : String → List Anchor → Except String (List Int)
  boardFetch : String → Except String (List Anchor)
  jobEnv : JobEnv
  sinkAppend : List (List Cell) → Except String Nat

/-- The `except` arm of the per-source `try` (lines 373–381). -/
def careersFail (collectErrors : Bool) (st : PipeState) (careersUrl msg : String) :
    PipeState :=
  { st with
      totals := { st.totals with errors := st.totals.errors + 1 }
      errorLog :=
        if collectErrors then st.errorLog ++ [⟨ErrorScope.careers, careersUrl, msg⟩]
        else st.errorLog }

/-- One iteration of the source loop of `run_pipeline` (lines 108–381):
fetch + anchor extraction, tiered selection, `job_urls_found` accumulation,
max-jobs truncation, the worker batch, the sink append, and
`careers_processed` on the success path; any escaping exception is caught
and recorded with scope `"careers"`. -/
def processSource (env : SourceEnv) (resume : Bool) (companyOverride : Option String)
    (collectErrors : Bool) (maxJobs : Option Nat) (st : PipeState)
    (careersUrl : String) : PipeState :=
  match env.fetchCareers careersUrl with
  | .error e => careersFail collectErrors st careersUrl e
  | .ok anchors =>
    let limitedAnchors := anchors.take 150
    match env.oracleIndices careersUrl limitedAnchors with
    | .error e => careersFail collectErrors st careersUrl e
    | .ok indices =>
      let sel := selectCandidates limitedAnchors indices careersUrl env.boardFetch
      let jobUrls := sel.jobUrls
      let st :=
        { st with totals :=
            { st.totals with job_urls_found := st.totals.job_urls_found + jobUrls.length } }
      let jobUrls :=
        match maxJobs with
        | none => jobUrls
        | some m => jobUrls.take m
      let (st, results) := runBatch env.jobEnv resume companyOverride collectErrors st jobUrls
      let rows := results.filterMap id
      if rows.isEmpty then
        { st with totals :=
            { st.totals with careers_processed := st.totals.careers_processed + 1 } }
      else
        match env.sinkAppend rows with
        | .error e => careersFail collectErrors st careersUrl e
        | .ok appended =>
            { st with totals :=
                { st.totals with
                    rows_appended := st.totals.rows_appended + appended
                    careers_processed := st.totals.careers_processed + 1 } }

/-- The source loop itself. -/
def runSources (env : SourceEnv) (resume : Bool) (companyOverride : Option String)
    (collectErrors : Bool) (maxJobs : Option Nat) :
    PipeState → List String → PipeState
  | st, [] => st
  | st, u :: us =>
      runSources env resume companyOverride collectErrors maxJobs
        (processSource env resume companyOverride collectErrors maxJobs st u) us

/-! ## `utils/llm_client.py`: JSON extraction and the retry loop -/

/-- Index of the first occurrence of `pat` in a char list (Python `str.find`). -/
def findSubIdx (pat : List Char) : List Char → Option Nat
  | [] => if pat.isEmpty then some 0 else none
  | c :: cs =>
      if pat.isPrefixOf (c :: cs) then some 0
      else (findSubIdx pat cs).map (· + 1)

/-- The balanced-span scan of `_extract_json_text`: tracks string/escape state
and the nesting depth of the opener that started the span; returns the span
(accumulated in reverse in `acc`) once depth returns to zero. -/
def scanBalanced (opener closer : Char) (inString escape : Bool) (depth : Nat)
    (acc : List Char) : List Char → Option (List Char)
  | [] => none
  | c :: cs =>
      if inString then
        if escape then scanBalanced opener closer true false depth (c :: acc) cs
        else if c == '\\' then scanBalanced opener closer true true depth (c :: acc) cs
        else if c == '"' then scanBalanced opener closer false false depth (c :: acc) cs
        else scanBalanced opener closer true false depth (c :: acc) cs
      else
        if c == '"' then scanBalanced opener closer true false depth (c :: acc) cs
        else if c == opener then
          scanBalanced opener closer false false (depth + 1) (c :: acc) cs
        else if c == closer then
          if depth == 1 then some (c :: acc).reverse
          else scanBalanced opener closer false false (depth - 1) (c :: acc) cs
        else scanBalanced opener closer false false depth (c :: acc) cs

/-- Find the first `\x7b...\x7d` or `[...]` balanced span. -/
def findJsonSpan : List Char → Option (List Char)
  | [] => none
  | c :: cs =>
      if c == '{' then scanBalanced '{' '}' false false 1 [c] cs
      else if c == '[' then scanBalanced '[' ']' false false 1 [c] cs
      else findJsonSpan cs

def fenceLangHints : List String := ["json", "javascript", "ts", "text"]

/-- `OpenRouterClient._extract_json_text(text)`. -/
def extract_json_text (text : String) : String :=
  let s := stripStr text
  let s :=
    if strStartsWith s "```" && strEndsWith s "```" then
      let l := s.data
      let inner := stripStr ⟨(l.take (l.length - 3)).drop 3⟩
      let inner :=
        match splitFirstChar '\n' inner.data with
        | some (pre, post) =>
            if fenceLangHints.contains (lowerStr (stripStr ⟨pre⟩)) then
              String.mk post
            else inner
        | none => inner
      stripStr inner
    else s
  match findJsonSpan s.data with
  | some span => String.mk span
  | none =>
      match findSubIdx ("```json".data) s.data with
      | some i =>
          let rest := s.data.drop (i + 7)
          match findSubIdx ("```".data) rest with
          | some j => stripStr ⟨rest.take j⟩
          | none => s
      | none => s

/-- Outcome of `json.loads(cleaned)` followed by
`jsonschema.validate(instance, schema)` on the extracted text. The
successfully validated object is abstracted as a label. -/
inductive ParseValidateOutcome where
  | ok (obj : String)
  | jsonDecodeError (msg : String)
  | validationError (msg : String)
deriving DecidableEq, Repr

/-- One oracle call as observed from outside: its 1-based attempt number, the
user prompt it was issued with, and the backoff slept after it (`none` when no
`time.sleep` ran). -/
structure CallRec where
  attemptNo : Nat
  prompt : String
  sleptFor : Option ℚ
deriving DecidableEq, Repr

inductive CJResult where
  | ok (obj : String) (calls : List CallRec)
  | err (msg : String) (calls : List CallRec)
deriving DecidableEq, Repr

def CJResult.calls : CJResult → List CallRec
  | .ok _ cs => cs
  | .err _ cs => cs

def escapeNewlines (s : String) : String :=
  ⟨(s.data.map (fun c => if c == '\n' then ['\\', 'n'] else [c])).flatten⟩

/-- `cleaned[:n].replace("\n", "\\n")`. -/
def snippetOf (n : Nat) (cleaned : String) : String :=
  escapeNewlines (takeStr n cleaned)

def decodeFailMsg (e cleaned : String) : String :=
  "JSON parsing failed: " ++ e ++ " | Raw content snippet (500 chars): \"" ++
    snippetOf 500 cleaned ++ "\""

def schemaFailMsg (e cleaned : String) : String :=
  e ++ " | snippet=\"" ++ snippetOf 280 cleaned ++ "\""

/-- The tightening directive appended to the user prompt. -/
def jsonOnlyDirective : String :=
  "\n\nReturn ONLY a valid JSON object that conforms to the schema. " ++
    "Do not include markdown, code fences, or any explanation."

def exhaustedMsg (lastError : Option String) : String :=
  "LLM failed to produce valid JSON after retries: " ++ lastError.getD "None"

/-- The `while attempts <= retries_budget` loop of `complete_json`.
`remaining` counts loop iterations left (`budget + 1` initially), `attempts`
the calls already made; `respond` models `_post_chat` (attempt number and
current user prompt to raw content) and `pv` the parse + schema validation
of the extracted text. The `jsonDecodeError` arm records the error and
retries immediately; the `validationError` arm additionally tightens the
prompt and sleeps `0.75 * attempts`. -/
def completeJsonGo (respond : Nat → String → String)
    (pv : String → ParseValidateOutcome) :
    Nat → Nat → String → Option String → List CallRec → CJResult
  | 0, _, _, lastError, calls => .err (exhaustedMsg lastError) calls
  | remaining + 1, attempts, userPrompt, _, calls =>
      let attempts := attempts + 1
      let content := respond attempts userPrompt
      let cleaned := extract_json_text content
      match pv cleaned with
      | .ok obj => .ok obj (calls ++ [⟨attempts, userPrompt, none⟩])
      | .jsonDecodeError e =>
          completeJsonGo respond pv remaining attempts userPrompt
            (some (decodeFailMsg e cleaned)) (calls ++ [⟨attempts, userPrompt, none⟩])
      | .validationError e =>
          completeJsonGo respond pv remaining attempts
            (userPrompt ++ jsonOnlyDirective)
            (some (schemaFailMsg e cleaned))
            (calls ++ [⟨attempts, userPrompt, some ((3 / 4 : ℚ) * attempts)⟩])

/-- `OpenRouterClient.complete_json(..., max_retries)`: the per-call override
falls back to the client default; the loop runs at most `budget + 1` times. -/
def complete_json (respond : Nat → String → String)
    (pv : String → ParseValidateOutcome) (clientMaxRetries : Nat)
    (maxRetries : Option Nat) (userPrompt : String) : CJResult :=
  let budget := maxRetries.getD clientMaxRetries
  completeJsonGo respond pv (budget + 1) 0 userPrompt none []

/-- Relation between consecutive recorded oracle calls: attempt numbers are
consecutive, and the later call's prompt either equals the earlier one's
unchanged (the JSON-decode-failure arm, which also does not sleep) or has the
JSON-only directive appended (the schema-validation arm, which sleeps
`0.75·attempt`). -/
def retryStep (c1 c2 : CallRec) : Prop :=
  c2.attemptNo = c1.attemptNo + 1 ∧
  ((c2.prompt = c1.prompt ∧ c1.sleptFor = none) ∨
   (c2.prompt = c1.prompt ++ jsonOnlyDirective ∧
    c1.sleptFor = some ((3 / 4 : ℚ) * c1.attemptNo)))

/-- "`msg` is the exhaustion error built from the failure of the call
`lastc`": it embeds the last parse/validation error together with the
truncated snippet of the last raw output. -/
def lastAttemptError (respond : Nat → String → String)
    (pv : String → ParseValidateOutcome) (lastc : CallRec) (msg : String) : Prop :=
  let cleaned := extract_json_text (respond lastc.attemptNo lastc.prompt)
  (∃ e, pv cleaned = .jsonDecodeError e ∧
    msg = exhaustedMsg (some (decodeFailMsg e cleaned))) ∨
  (∃ e, pv cleaned = .validationError e ∧
    msg = exhaustedMsg (some (schemaFailMsg e cleaned)))

/-- Loop invariant: `lastError` is the error string recorded for call
`lastc`'s failure. -/
def recordedError (respond : Nat → String → String)
    (pv : String → ParseValidateOutcome) (lastc : CallRec)
    (lastError : Option String) : Prop :=
  let cleaned := extract_json_text (respond lastc.attemptNo lastc.prompt)
  (∃ e, pv cleaned = .jsonDecodeError e ∧ lastError = some (decodeFailMsg e cleaned)) ∨
  (∃ e, pv cleaned = .validationError e ∧ lastError = some (schemaFailMsg e cleaned))

/-! ## Rate gate (`_enforce_rate_limit` in `firecrawl_client.py` / `llm_client.py`)

The two clients share the identical gate body: read `_last_request_time`,
compute `time_since_last`, sleep the deficit, store a fresh `time.time()`.
Times are modelled as exact rationals on a monotone logical clock, as the
spec's testable-property section prescribes ("injecting a controllable
clock"). The body takes no lock, so its two shared-state accesses — the read
of `_last_request_time` and the write at the end — are separate atomic
events that concurrent callers may interleave. -/

/-- Exit time of one uninterrupted `_enforce_rate_limit` execution whose
`time.time()` read happened at `now` with stored value `last`: sleep until
`last + delay` when inside the window, otherwise return immediately. -/
def enforceExitTime (last now delay : ℚ) : ℚ :=
  if now - last < delay then last + delay else now

/-- Per-thread view of one in-flight `_enforce_rate_limit` call. -/
structure GateThread where
  readVal : Option ℚ
  readTime : Option ℚ
  issued : Option ℚ
deriving DecidableEq, Repr

/-- Shared gate state: `_last_request_time`, the logical clock, two callers. -/
structure GateConfig where
  last : ℚ
  clock : ℚ
  th1 : GateThread
  th2 : GateThread
deriving DecidableEq, Repr

/-- Atomic events of the gate body: `readLast tid t` is the
`current_time = time.time()` / `self._last_request_time` read; `issueAt tid t`
is waking from the sleep, storing `self._last_request_time = time.time()` and
issuing the request at time `t`. -/
inductive GateEvent where
  | readLast (tid : Nat) (t : ℚ)
  | issueAt (tid : Nat) (t : ℚ)
deriving DecidableEq, Repr

/-- Earliest time the request may go out given the values the thread read. -/
def wakeTime (r tr delay : ℚ) : ℚ :=
  if tr - r < delay then r + delay else tr

def gateThread (c : GateConfig) (tid : Nat) : GateThread :=
  if tid == 1 then c.th1 else c.th2

def setGateThread (c : GateConfig) (tid : Nat) (th : GateThread) : GateConfig :=
  if tid == 1 then { c with th1 := th } else { c with th2 := th }

/-- Small-step semantics of two callers interleaving on one client instance.
Steps occur at nondecreasing clock times; each thread reads once and issues
once, and may not issue before its wake time. -/
def gateStep (delay : ℚ) (c : GateConfig) : GateEvent → Option GateConfig
  | .readLast tid t =>
      let th := gateThread c tid
      if t < c.clock then none
      else if th.readTime.isSome then none
      else some { setGateThread c tid { th with readVal := some c.last, readTime := some t }
                    with clock := t }
  | .issueAt tid t =>
      let th := gateThread c tid
      match th.readVal, th.readTime with
      | some r, some tr =>
          if th.issued.isSome then none
          else if t < c.clock then none
          else if t < wakeTime r tr delay then none
          else some { setGateThread c tid { th with issued := some t }
                        with last := t, clock := t }
      | _, _ => none

def gateRun (delay : ℚ) (c : GateConfig) : List GateEvent → Option GateConfig
  | [] => some c
  | e :: es =>
      match gateStep delay c e with
      | none => none
      | some c' => gateRun delay c' es

/-- Client construction: `self._last_request_time = 0.0`. -/
def gateInit : GateConfig :=
  ⟨0, 0, ⟨none, none, none⟩, ⟨none, none, none⟩⟩

/-! ## Request adapters (`api/pipeline.py`, `api/run_local.py`) -/

/-- The fields of the handler's JSON response that the claims observe. -/
structure HandlerResponse where
  statusCode : Nat
  errorField : Option String
  totals : RunTotals
  errors : List ErrorEntry
deriving DecidableEq, Repr

def firstErrorMessage : List ErrorEntry → String
  | [] => ""
  | e :: _ => e.message

/-- Result surfacing of `handler` (api/pipeline.py lines 174–190): a 500 with
the first error's message exactly when `careers_processed == 0` and the
errors list is non-empty; otherwise a 200 whose payload has no `error` key. -/
def handlerRespond (totals : RunTotals) (errors : List ErrorEntry) : HandlerResponse :=
  if totals.careers_processed == 0 && !errors.isEmpty then
    let message := firstErrorMessage errors
    ⟨500, some (if message != "" then message else "Pipeline reported an error"),
     totals, errors⟩
  else ⟨200, none, totals, errors⟩

/-- The `error` field `run_local.execute` adds to its response payload
(lines 64–79): present only when errors were recorded and
`careers_processed == 0`. -/
def runLocalErrorField (totals : RunTotals) (errors : List ErrorEntry) : Option String :=
  if !errors.isEmpty && totals.careers_processed == 0 then
    some (if firstErrorMessage errors != "" then firstErrorMessage errors
          else "Pipeline reported an error")
  else none

/-! ## `utils/ats/bamboohr.py`: `_extract_compensation` / `_coerce_number`

Upstream JSON values with Python truthiness; floats as exact rationals
(`float(...)` restricted to finite decimal literals — `inf`/`nan` never occur
in compensation payloads). -/

inductive PyVal where
  | pyNone
  | pyBool (b : Bool)
  | pyInt (n : Int)
  | pyFloat (q : ℚ)
  | pyStr (s : String)
  | pyDict (entries : List (String × PyVal))
  | pyList (items : List PyVal)

/-- Python truthiness. -/
def truthy : PyVal → Bool
  | .pyNone => false
  | .pyBool b => b
  | .pyInt n => n != 0
  | .pyFloat q => q != 0
  | .pyStr s => s != ""
  | .pyDict es => !es.isEmpty
  | .pyList xs => !xs.isEmpty

/-- `d.get(k)` (keys unique, as in JSON-decoded dicts). -/
def dictGet (entries : List (String × PyVal)) (k : String) : PyVal :=
  match entries.find? (fun e => e.1 == k) with
  | some e => e.2
  | none => .pyNone

/-- Python `a or b`. -/
def pyOr (a b : PyVal) : PyVal :=
  if truthy a then a else b

/-- Digit run continuation with PEP 515 underscores: `(digit | '_' digit)*`. -/
def digitsUAux : List Char → List Char × List Char
  | [] => ([], [])
  | c :: cs =>
      if c.isDigit then
        let (ds, rest) := digitsUAux cs
        (c :: ds, rest)
      else if c == '_' then
        match cs with
        | d :: cs' =>
            if d.isDigit then
              let (ds, rest) := digitsUAux cs'
              (d :: ds, rest)
            else ([], c :: cs)
        | [] => ([], [c])
      else ([], c :: cs)

/-- A digit run (must start with a digit). -/
def parseDigitsU : List Char → Option (List Char × List Char)
  | [] => none
  | c :: cs =>
      if c.isDigit then
        let (ds, rest) := digitsUAux cs
        some (c :: ds, rest)
      else none

def digitsVal (ds : List Char) : Nat :=
  ds.foldl (fun a c => a * 10 + (c.toNat - 48)) 0

def parseSign : List Char → Bool × List Char
  | '+' :: cs => (false, cs)
  | '-' :: cs => (true, cs)
  | cs => (false, cs)

def parseExpPart : List Char → Option (Int × List Char)
  | cs =>
      let (eneg, cs1) := parseSign cs
      match parseDigitsU cs1 with
      | some (ds, r) =>
          some ((if eneg then -(digitsVal ds : Int) else (digitsVal ds : Int)), r)
      | none => none

/-- CPython `float(cleaned)` on an already-stripped literal:
`[sign] (digits ['.' [digits]] | '.' digits) [('e'|'E') [sign] digits]`. -/
def pyFloatOfCleaned (s : List Char) : Option ℚ :=
  let (neg, rest) := parseSign s
  let mant : Option (ℚ × List Char) :=
    match parseDigitsU rest with
    | some (ids, r1) =>
        match r1 with
        | '.' :: r2 =>
            match parseDigitsU r2 with
            | some (fds, r3) =>
                some ((digitsVal ids : ℚ) + (digitsVal fds : ℚ) / (10 : ℚ) ^ fds.length, r3)
            | none => some ((digitsVal ids : ℚ), r2)
        | _ => some ((digitsVal ids : ℚ), r1)
    | none =>
        match rest with
        | '.' :: r2 =>
            match parseDigitsU r2 with
            | some (fds, r3) =>
                some ((digitsVal fds : ℚ) / (10 : ℚ) ^ fds.length, r3)
            | none => none
        | _ => none
  match mant with
  | none => none
  | some (m, r) =>
      let withExp : Option (ℚ × List Char) :=
        match r with
        | 'e' :: r1 =>
            match parseExpPart r1 with
            | some (e, r2) => some (m * (10 : ℚ) ^ e, r2)
            | none => none
        | 'E' :: r1 =>
            match parseExpPart r1 with
            | some (e, r2) => some (m * (10 : ℚ) ^ e, r2)
            | none => none
        | _ => some (m, r)
      match withExp with
      | some (v, []) => some (if neg then -v else v)
      | _ => none

def removeCommas (s : String) : String :=
  ⟨s.data.filter (fun c => c != ',')⟩

/-- `_coerce_number(value)`: numbers (including bools, which are `int`s) via
`float(value)`; strings stripped, commas removed, then `float(...)` or `None`;
everything else `None`. -/
def coerce_number : PyVal → Option ℚ
  | .pyBool b => some (if b then 1 else 0)
  | .pyInt n => some (n : ℚ)
  | .pyFloat q => some q
  | .pyStr s =>
      let cleaned := removeCommas (stripStr s)
      if cleaned == "" then none else pyFloatOfCleaned cleaned.data
  | _ => none

/-- `_extract_compensation(compensation)`. -/
def extract_compensation (compensation : PyVal) : Option ℚ × Option ℚ :=
  match compensation with
  | .pyDict es =>
      match dictGet es "range" with
      | .pyDict res =>
          (coerce_number (pyOr (dictGet res "min") (dictGet res "minimum")),
           coerce_number (pyOr (dictGet res "max") (dictGet res "maximum")))
      | _ =>
          (coerce_number (pyOr (dictGet es "min") (dictGet es "minimum")),
           coerce_number (pyOr (dictGet es "max") (dictGet es "maximum")))
  | _ => (none, none)

/-! # Theorems -/

/-! ## URL absolutization (claim C6) -/

theorem absolutizeAux_nodup_avoid (b : String) :
    ∀ (us seen : List String),
      (absolutizeAux b seen us).Nodup ∧ ∀ a ∈ absolutizeAux b seen us, a ∉ seen := by
  intro us
  induction us with
  | nil => intro seen; simp [absolutizeAux]
  | cons u us ih =>
    intro seen
    rw [absolutizeAux]
    split
    · exact ih seen
    · dsimp only
      split
      · exact ih seen
      · split
        · exact ih seen
        · rename_i hkeep hscheme hseen
          obtain ⟨hnd, havoid⟩ := ih (urljoin b u :: seen)
          constructor
          · refine List.nodup_cons.mpr ⟨?_, hnd⟩
            intro hmem
            exact (havoid _ hmem) (List.mem_cons_self _ _)
          · intro a ha
            rcases List.mem_cons.mp ha with rfl | ha'
            · intro hmem
              exact hseen (by simpa using hmem)
            · intro hmem
              exact (havoid _ ha') (List.mem_cons_of_mem _ hmem)

theorem absolutizeAux_scheme (b : String) :
    ∀ (us seen : List String) (a : String), a ∈ absolutizeAux b seen us →
      isHttpScheme a = true := by
  intro us
  induction us with
  | nil => intro seen a ha; simp [absolutizeAux] at ha
  | cons u us ih =>
    intro seen a ha
    rw [absolutizeAux] at ha
    revert ha
    split
    · exact ih seen a
    · dsimp only
      split
      · exact ih seen a
      · split
        · exact ih seen a
        · rename_i hkeep hscheme hseen
          intro ha
          rcases List.mem_cons.mp ha with rfl | ha'
          · simpa using hscheme
          · exact ih _ a ha'

theorem absolutizeAux_sublist (b : String) :
    ∀ (us seen : List String),
      List.Sublist (absolutizeAux b seen us) ((us.filter keepHref).map (urljoin b)) := by
  intro us
  induction us with
  | nil => intro seen; simp [absolutizeAux]
  | cons u us ih =>
    intro seen
    rw [absolutizeAux]
    by_cases hk : keepHref u
    · rw [List.filter_cons_of_pos hk, List.map_cons]
      simp only [hk, Bool.not_true, Bool.false_eq_true, if_false]
      split
      · exact (ih seen).cons _
      · split
        · exact (ih seen).cons _
        · exact (ih _).cons₂ _
    · rw [List.filter_cons_of_neg (by simpa using hk)]
      simp only [hk, Bool.not_false, if_true]
      exact ih seen

theorem absolutizeAux_filter_keep (b : String) :
    ∀ (us seen : List String),
      absolutizeAux b seen us = absolutizeAux b seen (us.filter keepHref) := by
  intro us
  induction us with
  | nil => intro seen; simp
  | cons u us ih =>
    intro seen
    by_cases hk : keepHref u
    · rw [List.filter_cons_of_pos hk, absolutizeAux, absolutizeAux]
      simp only [hk, Bool.not_true, Bool.false_eq_true, if_false]
      split
      · exact ih seen
      · split
        · exact ih seen
        · exact congrArg _ (ih _)
    · rw [List.filter_cons_of_neg (by simpa using hk), absolutizeAux]
      simp only [hk, Bool.not_false, if_true]
      exact ih seen

/-- C6: with base `https://example.com/careers/`, the seven sample hrefs
absolutize to exactly the two job URLs; and in general the output of
`absolutize_and_dedupe_urls` preserves first-seen order (it is a sublist of
the absolutized kept inputs), contains no duplicates, contains only http(s)
URLs, and empty/fragment-prefixed hrefs are excluded before absolutization. -/
theorem absolutize_and_dedupe_urls_spec :
    absolutize_and_dedupe_urls
        ["/jobs/123", "https://example.com/jobs/123", "/jobs/456",
         "mailto:x@example.com", "tel:+1555", "javascript:void(0)", "#section"]
        "https://example.com/careers/" =
      ["https://example.com/jobs/123", "https://example.com/jobs/456"] ∧
    (∀ (urls : List String) (base : String),
      (absolutize_and_dedupe_urls urls base).Nodup) ∧
    (∀ (urls : List String) (base : String) (a : String),
      a ∈ absolutize_and_dedupe_urls urls base →
        schemeOf a = "http" ∨ schemeOf a = "https") ∧
    (∀ (urls : List String) (base : String),
      List.Sublist (absolutize_and_dedupe_urls urls base)
        ((urls.filter keepHref).map (urljoin base))) ∧
    (∀ (urls : List String) (base : String),
      absolutize_and_dedupe_urls urls base =
        absolutize_and_dedupe_urls (urls.filter keepHref) base) := by
  refine ⟨by decide, ?_, ?_, ?_, ?_⟩
  · intro urls base
    exact (absolutizeAux_nodup_avoid base urls []).1
  · intro urls base a ha
    have h := absolutizeAux_scheme base urls [] a ha
    simp only [isHttpScheme, Bool.or_eq_true, beq_iff_eq] at h
    exact h
  · intro urls base
    exact absolutizeAux_sublist base urls []
  · intro urls base
    exact absolutizeAux_filter_keep base urls []

/-- Witness for C6: the theorem applied at the sample input; its membership
hypothesis is discharged on the first output element. -/
theorem absolutize_and_dedupe_urls_spec_witness :
    "https://example.com/jobs/123" ∈
      absolutize_and_dedupe_urls
        ["/jobs/123", "https://example.com/jobs/123", "/jobs/456",
         "mailto:x@example.com", "tel:+1555", "javascript:void(0)", "#section"]
        "https://example.com/careers/" ∧
    (schemeOf "https://example.com/jobs/123" = "http" ∨
      schemeOf "https://example.com/jobs/123" = "https") :=
  ⟨by rw [absolutize_and_dedupe_urls_spec.1]; simp,
   absolutize_and_dedupe_urls_spec.2.2.1 _ "https://example.com/careers/" _
    (by rw [absolutize_and_dedupe_urls_spec.1]; simp)⟩

/-! ## Fingerprint (claim C5) -/

theorem strAppend_data (a b : String) : (a ++ b).data = a.data ++ b.data := by
  cases a; cases b; rfl

theorem strEqOfData {a b : String} (h : a.data = b.data) : a = b := by
  cases a; cases b; exact congrArg String.mk h

/-- C5 counterexample: two distinct input triples with the same fingerprint.
The `"||"` separator is not escaped, so shifting it between the URL and title
slots leaves the concatenated digest input — and hence the digest — unchanged:
`fingerprint("a||b","c","d") = fingerprint("a","b||c","d")`. -/
theorem fingerprint_not_injective_cex :
    fingerprint "a||b" "c" "d" = fingerprint "a" "b||c" "d" ∧
    ("a||b", "c", "d") ≠ (("a", "b||c", "d") : String × String × String) := by
  refine ⟨?_, by decide⟩
  have h : fpConcat "a||b" "c" "d" = fpConcat "a" "b||c" "d" := by decide
  simpa [fingerprint] using congrArg sha256hex h

/-- C5 amended: `fingerprint` is a pure deterministic function of the triple
(equal inputs always yield equal digests, the digest being exactly the SHA-256
hex of `canonical_url || title || company`), and changing any single one of
the three inputs while fixing the other two changes the digest's input string.
Full injectivity on triples fails (see the counterexample), and absolute
collision-freedom of the 256-bit digest itself is only computational. -/
theorem fingerprint_deterministic_slotwise :
    (∀ u₁ t₁ c₁ u₂ t₂ c₂ : String, u₁ = u₂ → t₁ = t₂ → c₁ = c₂ →
      fingerprint u₁ t₁ c₁ = fingerprint u₂ t₂ c₂) ∧
    (∀ u t c : String, fingerprint u t c = sha256hex (fpConcat u t c)) ∧
    (∀ u₁ u₂ t c : String, u₁ ≠ u₂ → fpConcat u₁ t c ≠ fpConcat u₂ t c) ∧
    (∀ u t₁ t₂ c : String, t₁ ≠ t₂ → fpConcat u t₁ c ≠ fpConcat u t₂ c) ∧
    (∀ u t c₁ c₂ : String, c₁ ≠ c₂ → fpConcat u t c₁ ≠ fpConcat u t c₂) := by
  refine ⟨?_, fun _ _ _ => rfl, ?_, ?_, ?_⟩
  · rintro u₁ t₁ c₁ u₂ t₂ c₂ rfl rfl rfl; rfl
  · intro u₁ u₂ t c hne heq
    apply hne
    apply strEqOfData
    have h := congrArg String.data heq
    simp only [fpConcat, strAppend_data, List.append_assoc] at h
    exact List.append_cancel_right h
  · intro u t₁ t₂ c hne heq
    apply hne
    apply strEqOfData
    have h := congrArg String.data heq
    simp only [fpConcat, strAppend_data, List.append_assoc] at h
    have h1 := List.append_cancel_left h
    have h2 := List.append_cancel_left h1
    rw [← List.append_assoc, ← List.append_assoc] at h2
    have h3 := List.append_cancel_right h2
    exact List.append_cancel_right h3
  · intro u t c₁ c₂ hne heq
    apply hne
    apply strEqOfData
    have h := congrArg String.data heq
    simp only [fpConcat, strAppend_data, List.append_assoc] at h
    exact List.append_cancel_left (List.append_cancel_left
      (List.append_cancel_left (List.append_cancel_left h)))

/-- Witness for C5's amended theorem at concrete inputs. -/
theorem fingerprint_deterministic_slotwise_witness :
    fingerprint "u" "t" "c" = fingerprint "u" "t" "c" ∧
    ("u1" : String) ≠ "u2" ∧ fpConcat "u1" "t" "c" ≠ fpConcat "u2" "t" "c" ∧
    ("t1" : String) ≠ "t2" ∧ fpConcat "u" "t1" "c" ≠ fpConcat "u" "t2" "c" ∧
    ("c1" : String) ≠ "c2" ∧ fpConcat "u" "t" "c1" ≠ fpConcat "u" "t" "c2" :=
  ⟨fingerprint_deterministic_slotwise.1 "u" "t" "c" "u" "t" "c" rfl rfl rfl,
   by decide,
   fingerprint_deterministic_slotwise.2.2.1 "u1" "u2" "t" "c" (by decide),
   by decide,
   fingerprint_deterministic_slotwise.2.2.2.1 "u" "t1" "t2" "c" (by decide),
   by decide,
   fingerprint_deterministic_slotwise.2.2.2.2 "u" "t" "c1" "c2" (by decide)⟩

/-! ## BambooHR compensation coercion (claim C10) -/

/-- C10 counterexample: an upstream compensation minimum equal to the number
`0` is *not* always coerced to absent. With payload
`{"range": {"minimum": 0}}` the or-chain `range.get("min") or
range.get("minimum")` lands on the numeric `0` in final position, and
`_coerce_number(0)` returns `0.0` — not `None`. -/
theorem extract_compensation_zero_cex :
    extract_compensation (.pyDict [("range", .pyDict [("minimum", .pyInt 0)])]) =
      (some (0 : ℚ), none) ∧
    some (0 : ℚ) ≠ (none : Option ℚ) := by
  refine ⟨by decide, by decide⟩

/-- C10 amended: the min/max values are selected by or-chained lookups before
numeric coercion, so a falsy primary value defers to the fallback key; the
result is absent when the value the chain settles on is `None` or an
empty/non-coercible string — in particular `{"min": 0}` with no `"minimum"`
key yields `None` rather than `0.0` — but a numeric `0` reached in the final
or-chain position coerces to `0.0`. Numeric values coerce to the
corresponding float, thousands-separated numeric strings are cleaned and
parsed, and non-coercible values yield `None`. -/
theorem extract_compensation_coercion :
    (∀ res : List (String × PyVal), truthy (dictGet res "min") = false →
      (extract_compensation (.pyDict [("range", .pyDict res)])).1 =
        coerce_number (dictGet res "minimum")) ∧
    extract_compensation (.pyDict [("range", .pyDict [("min", .pyInt 0)])]) =
      (none, none) ∧
    extract_compensation (.pyDict [("range", .pyDict [("min", .pyStr "")])]) =
      (none, none) ∧
    coerce_number .pyNone = none ∧
    coerce_number (.pyStr "") = none ∧
    (∀ q : ℚ, coerce_number (.pyFloat q) = some q) ∧
    (∀ n : ℤ, coerce_number (.pyInt n) = some (n : ℚ)) ∧
    coerce_number (.pyStr "90,000") = some (90000 : ℚ) ∧
    (∀ es, coerce_number (.pyDict es) = none) ∧
    (∀ xs, coerce_number (.pyList xs) = none) ∧
    (∀ s : String, pyFloatOfCleaned (removeCommas (stripStr s)).data = none →
      coerce_number (.pyStr s) = none) := by
  refine ⟨?_, by decide, by decide, rfl, by decide, fun q => rfl, fun n => rfl,
    by decide, fun es => rfl, fun xs => rfl, ?_⟩
  · intro res hmin
    simp only [dictGet] at hmin
    simp [extract_compensation, dictGet, pyOr, hmin]
  · intro s hparse
    simp only [coerce_number]
    split
    · rename_i hemp
      rfl
    · exact hparse

/-- Witness for C10's amended theorem: the or-chain hypothesis discharged on
`{"minimum": "75,000"}` (falsy `min`), and the non-coercible hypothesis on
the string `"n/a"`. -/
theorem extract_compensation_coercion_witness :
    truthy (dictGet [("minimum", PyVal.pyStr "75,000")] "min") = false ∧
    (extract_compensation
        (.pyDict [("range", .pyDict [("minimum", PyVal.pyStr "75,000")])])).1 =
      coerce_number (dictGet [("minimum", PyVal.pyStr "75,000")] "minimum") ∧
    pyFloatOfCleaned (removeCommas (stripStr "n/a")).data = none ∧
    coerce_number (.pyStr "n/a") = none :=
  ⟨by decide,
   extract_compensation_coercion.1 [("minimum", PyVal.pyStr "75,000")] (by decide),
   by decide,
   extract_compensation_coercion.2.2.2.2.2.2.2.2.2.2 "n/a" (by decide)⟩

/-! ## Request-adapter surfacing (claim C9) -/

/-- C9 counterexample: a complete run with *zero successfully processed
postings* (`rows_appended = 0`, `duplicates = 0`) and one recorded error is
surfaced as HTTP 200 with no `error` field, because both adapters key the
failure decision on `careers_processed == 0` (zero successful *Sources*), not
on postings: here the Source loop completed (`careers_processed = 1`) while
its only candidate failed. -/
theorem adapter_zero_postings_cex :
    processSource
        ⟨fun _ => .ok [⟨"/jobs/1", "\"\""⟩],
         fun _ _ => .ok [(0 : Int)],
         fun _ => .error "x",
         ⟨fun _ => false, fun _ => .error "nope", fun _ => .error "fetch boom",
          fun _ _ => .error "y"⟩,
         fun _ => .ok 0⟩
        false none true none ⟨[], ⟨0, 0, 0, 0, 0⟩, []⟩ "https://e.com/careers" =
      ⟨[], ⟨1, 1, 0, 0, 1⟩,
       [⟨ErrorScope.job, "https://e.com/jobs/1", "fetch boom"⟩]⟩ ∧
    handlerRespond ⟨1, 1, 0, 0, 1⟩
        [⟨ErrorScope.job, "https://e.com/jobs/1", "fetch boom"⟩] =
      ⟨200, none, ⟨1, 1, 0, 0, 1⟩,
       [⟨ErrorScope.job, "https://e.com/jobs/1", "fetch boom"⟩]⟩ ∧
    runLocalErrorField ⟨1, 1, 0, 0, 1⟩
        [⟨ErrorScope.job, "https://e.com/jobs/1", "fetch boom"⟩] = none := by
  refine ⟨by decide, by decide, by decide⟩

/-- C9 amended: the adapters surface a failed invocation exactly when zero
*Sources* were successfully processed (`careers_processed == 0`) and at least
one error was recorded; the 500 response carries the first recorded error's
message (with a fixed default for an empty message) alongside the full totals
and errors; in every other case — including runs where every posting failed
but a Source completed — the invocation is surfaced as 200 with no error
field. `run_local.execute` sets its `error` field under the same condition. -/
theorem adapter_surfacing :
    (∀ (totals : RunTotals) (errors : List ErrorEntry),
      (handlerRespond totals errors).statusCode = 500 ↔
        totals.careers_processed = 0 ∧ errors ≠ []) ∧
    (∀ (totals : RunTotals) (e : ErrorEntry) (rest : List ErrorEntry),
      totals.careers_processed = 0 →
        (handlerRespond totals (e :: rest)).errorField =
          some (if e.message != "" then e.message else "Pipeline reported an error") ∧
        (handlerRespond totals (e :: rest)).totals = totals ∧
        (handlerRespond totals (e :: rest)).errors = e :: rest) ∧
    (∀ (totals : RunTotals) (errors : List ErrorEntry),
      totals.careers_processed ≠ 0 ∨ errors = [] →
        handlerRespond totals errors = ⟨200, none, totals, errors⟩) ∧
    (∀ (totals : RunTotals) (errors : List ErrorEntry),
      runLocalErrorField totals errors ≠ none ↔
        totals.careers_processed = 0 ∧ errors ≠ []) := by
  refine ⟨?_, ?_, ?_, ?_⟩
  · intro totals errors
    cases errors with
    | nil => simp [handlerRespond]
    | cons e rest =>
        by_cases h0 : totals.careers_processed = 0
        · simp [handlerRespond, h0]
        · simp [handlerRespond, h0]
  · intro totals e rest h0
    simp [handlerRespond, h0, firstErrorMessage]
  · intro totals errors h
    rcases h with h | rfl
    · cases errors with
      | nil => simp [handlerRespond]
      | cons e rest => simp [handlerRespond, h]
    · simp [handlerRespond]
  · intro totals errors
    cases errors with
    | nil => simp [runLocalErrorField]
    | cons e rest =>
        by_cases h0 : totals.careers_processed = 0
        · simp [runLocalErrorField, h0]
        · simp [runLocalErrorField, h0]

/-- Witness for C9's amended theorem at concrete totals/errors. -/
theorem adapter_surfacing_witness :
    ((⟨0, 0, 0, 0, 1⟩ : RunTotals).careers_processed = 0 ∧
      handlerRespond ⟨0, 0, 0, 0, 1⟩ [⟨ErrorScope.careers, "u", "boom"⟩] =
        ⟨500, some "boom", ⟨0, 0, 0, 0, 1⟩, [⟨ErrorScope.careers, "u", "boom"⟩]⟩) ∧
    ((⟨1, 0, 0, 0, 1⟩ : RunTotals).careers_processed ≠ 0 ∧
      handlerRespond ⟨1, 0, 0, 0, 1⟩ [⟨ErrorScope.job, "u", "boom"⟩] =
        ⟨200, none, ⟨1, 0, 0, 0, 1⟩, [⟨ErrorScope.job, "u", "boom"⟩]⟩) := by
  constructor
  · refine ⟨rfl, ?_⟩
    have h := adapter_surfacing.2.1 ⟨0, 0, 0, 0, 1⟩ ⟨ErrorScope.careers, "u", "boom"⟩ [] rfl
    have hs := (adapter_surfacing.1 ⟨0, 0, 0, 0, 1⟩ [⟨ErrorScope.careers, "u", "boom"⟩]).mpr
      ⟨rfl, by simp⟩
    obtain ⟨he, ht, hr⟩ := h
    cases hh : handlerRespond ⟨0, 0, 0, 0, 1⟩ [⟨ErrorScope.careers, "u", "boom"⟩]
    rw [hh] at he ht hr hs
    simp only at he ht hr hs
    simp [hs, ht, hr, he]
  · refine ⟨by decide, ?_⟩
    exact adapter_surfacing.2.2.1 ⟨1, 0, 0, 0, 1⟩ [⟨ErrorScope.job, "u", "boom"⟩]
      (Or.inl (by decide))

/-! ## Rate gate (claim C7) -/

/-- C7 counterexample: the gate body takes no lock, so two workers sharing
one client instance can both read the initial `_last_request_time = 0.0`
before either writes it back, both conclude no sleep is needed, and issue
their requests at the same instant — closer together than the configured
interval (`delay = 1`). The interleaving below is a valid execution of the
modelled `_enforce_rate_limit` body. -/
theorem rate_gate_concurrent_cex :
    gateRun 1 gateInit
        [.readLast 1 100, .readLast 2 100, .issueAt 1 100, .issueAt 2 100] =
      some ⟨100, 100, ⟨some 0, some 100, some 100⟩, ⟨some 0, some 100, some 100⟩⟩ ∧
    (100 : ℚ) - 100 < 1 := by
  constructor
  · norm_num [gateRun, gateStep, gateInit, gateThread, setGateThread, wakeTime]
  · norm_num

/-- C7 amended: successive *uninterleaved* calls through the same client are
spaced at least `rate_limit_delay` apart — both as the closed-form fact about
`_enforce_rate_limit`'s exit times, and for every valid gate execution in
which the second caller reads the gate only after the first caller has
issued; but with no lock, interleaved concurrent callers can violate the
interval (see the counterexample). -/
theorem rate_gate_sequential_spacing :
    (∀ last now1 now2 delay : ℚ,
      enforceExitTime last now1 delay + delay ≤
        enforceExitTime (enforceExitTime last now1 delay) now2 delay) ∧
    (∀ (delay a b c d : ℚ) (cfg1 cfg2 cfg3 cfg4 : GateConfig),
      gateStep delay gateInit (.readLast 1 a) = some cfg1 →
      gateStep delay cfg1 (.issueAt 1 b) = some cfg2 →
      gateStep delay cfg2 (.readLast 2 c) = some cfg3 →
      gateStep delay cfg3 (.issueAt 2 d) = some cfg4 →
        cfg4.th1.issued = some b ∧ cfg4.th2.issued = some d ∧ b + delay ≤ d) := by
  constructor
  · intro last now1 now2 delay
    set x := enforceExitTime last now1 delay with hx
    rw [enforceExitTime]
    split
    · exact le_refl _
    · rename_i hge
      push_neg at hge
      linarith
  · intro delay a b c d cfg1 cfg2 cfg3 cfg4 h1 h2 h3 h4
    simp [gateStep, gateInit, gateThread, setGateThread] at h1
    obtain ⟨-, h1⟩ := h1
    subst h1
    simp [gateStep, gateThread, setGateThread] at h2
    obtain ⟨hba, hbw, h2⟩ := h2
    subst h2
    simp [gateStep, gateThread, setGateThread] at h3
    obtain ⟨hcb, h3⟩ := h3
    subst h3
    simp [gateStep, gateThread, setGateThread] at h4
    obtain ⟨hdc, hdw, h4⟩ := h4
    subst h4
    refine ⟨rfl, rfl, ?_⟩
    rw [wakeTime] at hdw
    revert hdw
    split
    · intro hdw; linarith
    · rename_i hcbd
      push_neg at hcbd
      intro hdw; linarith

/-- Witness for C7's amended theorem: a concrete sequential execution with
`delay = 1` in which the second call is issued exactly one unit after the
first. -/
theorem rate_gate_sequential_spacing_witness :
    gateStep 1 gateInit (.readLast 1 10) =
      some ⟨0, 10, ⟨some 0, some 10, none⟩, ⟨none, none, none⟩⟩ ∧
    gateStep 1 ⟨0, 10, ⟨some 0, some 10, none⟩, ⟨none, none, none⟩⟩ (.issueAt 1 10) =
      some ⟨10, 10, ⟨some 0, some 10, some 10⟩, ⟨none, none, none⟩⟩ ∧
    gateStep 1 ⟨10, 10, ⟨some 0, some 10, some 10⟩, ⟨none, none, none⟩⟩
        (.readLast 2 10) =
      some ⟨10, 10, ⟨some 0, some 10, some 10⟩, ⟨some 10, some 10, none⟩⟩ ∧
    gateStep 1 ⟨10, 10, ⟨some 0, some 10, some 10⟩, ⟨some 10, some 10, none⟩⟩
        (.issueAt 2 11) =
      some ⟨11, 11, ⟨some 0, some 10, some 10⟩, ⟨some 10, some 10, some 11⟩⟩ ∧
    ((⟨11, 11, ⟨some 0, some 10, some 10⟩, ⟨some 10, some 10, some 11⟩⟩ :
        GateConfig).th1.issued = some 10 ∧
      (⟨11, 11, ⟨some 0, some 10, some 10⟩, ⟨some 10, some 10, some 11⟩⟩ :
        GateConfig).th2.issued = some 11 ∧
      (10 : ℚ) + 1 ≤ 11) := by
  have e1 : gateStep 1 gateInit (.readLast 1 10) =
      some ⟨0, 10, ⟨some 0, some 10, none⟩, ⟨none, none, none⟩⟩ := by
    norm_num [gateStep, gateInit, gateThread, setGateThread]
  have e2 : gateStep 1 ⟨0, 10, ⟨some 0, some 10, none⟩, ⟨none, none, none⟩⟩
      (.issueAt 1 10) =
      some ⟨10, 10, ⟨some 0, some 10, some 10⟩, ⟨none, none, none⟩⟩ := by
    norm_num [gateStep, gateThread, setGateThread, wakeTime]
  have e3 : gateStep 1 ⟨10, 10, ⟨some 0, some 10, some 10⟩, ⟨none, none, none⟩⟩
      (.readLast 2 10) =
      some ⟨10, 10, ⟨some 0, some 10, some 10⟩, ⟨some 10, some 10, none⟩⟩ := by
    norm_num [gateStep, gateThread, setGateThread]
  have e4 : gateStep 1 ⟨10, 10, ⟨some 0, some 10, some 10⟩, ⟨some 10, some 10, none⟩⟩
      (.issueAt 2 11) =
      some ⟨11, 11, ⟨some 0, some 10, some 10⟩, ⟨some 10, some 10, some 11⟩⟩ := by
    norm_num [gateStep, gateThread, setGateThread, wakeTime]
  exact ⟨e1, e2, e3, e4,
    rate_gate_sequential_spacing.2 1 10 10 10 11 _ _ _ _ e1 e2 e3 e4⟩

/-! ## Generic Field Extractor retry loop (claim C4) -/

set_option maxRecDepth 4000 in
/-- C4 counterexample: with a retry budget of 1 and a model that always
returns unparsable output, the loop makes two calls — but after the first
failed attempt (a JSON parse failure) the second call's prompt is *unchanged*
(no JSON-only directive appended) and no backoff is slept: only the
schema-validation arm tightens and sleeps. -/
theorem complete_json_parse_failure_cex :
    complete_json (fun _ _ => "not json")
        (fun _ => .jsonDecodeError "Expecting value: line 1 column 1 (char 0)")
        4 (some 1) "p" =
      .err ("LLM failed to produce valid JSON after retries: JSON parsing failed: " ++
            "Expecting value: line 1 column 1 (char 0) | Raw content snippet " ++
            "(500 chars): \"not json\"")
        [⟨1, "p", none⟩, ⟨2, "p", none⟩] ∧
    ("p" : String) ≠ "p" ++ jsonOnlyDirective :=
  ⟨by decide, by decide⟩

theorem completeJsonGo_zero (respond : Nat → String → String)
    (pv : String → ParseValidateOutcome) (attempts : Nat) (prompt : String)
    (lastError : Option String) (calls : List CallRec) :
    completeJsonGo respond pv 0 attempts prompt lastError calls =
      .err (exhaustedMsg lastError) calls := by
  rw [completeJsonGo.eq_def]

theorem completeJsonGo_succ (respond : Nat → String → String)
    (pv : String → ParseValidateOutcome) (r attempts : Nat) (prompt : String)
    (lastError : Option String) (calls : List CallRec) :
    completeJsonGo respond pv (r + 1) attempts prompt lastError calls =
      (match pv (extract_json_text (respond (attempts + 1) prompt)) with
       | .ok obj => .ok obj (calls ++ [⟨attempts + 1, prompt, none⟩])
       | .jsonDecodeError e =>
           completeJsonGo respond pv r (attempts + 1) prompt
             (some (decodeFailMsg e (extract_json_text (respond (attempts + 1) prompt))))
             (calls ++ [⟨attempts + 1, prompt, none⟩])
       | .validationError e =>
           completeJsonGo respond pv r (attempts + 1) (prompt ++ jsonOnlyDirective)
             (some (schemaFailMsg e (extract_json_text (respond (attempts + 1) prompt))))
             (calls ++ [⟨attempts + 1, prompt,
               some ((3 / 4 : ℚ) * ((attempts + 1 : ℕ) : ℚ))⟩])) := by
  rw [completeJsonGo.eq_def]

theorem completeJsonGo_spec (respond : Nat → String → String)
    (pv : String → ParseValidateOutcome) :
    ∀ (remaining attempts : Nat) (prompt : String) (lastError : Option String)
      (calls : List CallRec),
      calls.Chain' retryStep →
      (∀ lastc, calls.getLast? = some lastc →
        lastc.attemptNo = attempts ∧
        ((prompt = lastc.prompt ∧ lastc.sleptFor = none) ∨
         (prompt = lastc.prompt ++ jsonOnlyDirective ∧
          lastc.sleptFor = some ((3 / 4 : ℚ) * lastc.attemptNo))) ∧
        recordedError respond pv lastc lastError) →
      (completeJsonGo respond pv remaining attempts prompt lastError calls).calls.length
          ≤ calls.length + remaining ∧
      (completeJsonGo respond pv remaining attempts prompt lastError calls).calls.Chain'
        retryStep ∧
      (∀ msg cs,
        completeJsonGo respond pv remaining attempts prompt lastError calls = .err msg cs →
          cs.length = calls.length + remaining ∧
          ∀ lastc, cs.getLast? = some lastc → lastAttemptError respond pv lastc msg) := by
  intro remaining
  induction remaining with
  | zero =>
    intro attempts prompt lastError calls hchain hlast
    rw [completeJsonGo_zero]
    refine ⟨by simp [CJResult.calls], by simpa [CJResult.calls] using hchain, ?_⟩
    intro msg cs h
    injection h with h1 h2
    subst h1; subst h2
    refine ⟨by simp, ?_⟩
    intro lastc hl
    obtain ⟨-, -, hrec⟩ := hlast lastc hl
    rcases hrec with ⟨e, hpv, hle⟩ | ⟨e, hpv, hle⟩
    · exact Or.inl ⟨e, hpv, by rw [hle]⟩
    · exact Or.inr ⟨e, hpv, by rw [hle]⟩
  | succ r ih =>
    intro attempts prompt lastError calls hchain hlast
    have hstepOk : ∀ (slept : Option ℚ),
        (calls ++ [(⟨attempts + 1, prompt, slept⟩ : CallRec)]).Chain' retryStep := by
      intro slept
      refine List.Chain'.append hchain (List.chain'_singleton _) ?_
      intro x hx y hy
      simp only [List.head?_cons, Option.mem_def, Option.some.injEq] at hy
      subst hy
      obtain ⟨hat, hpr, -⟩ := hlast x (by simpa using hx)
      unfold retryStep
      refine ⟨by simp [hat], ?_⟩
      rcases hpr with ⟨h1, h2⟩ | ⟨h1, h2⟩
      · exact Or.inl ⟨by simp [h1.symm], h2⟩
      · exact Or.inr ⟨by simp [h1.symm], h2⟩
    have hlen : ∀ (slept : Option ℚ),
        (calls ++ [(⟨attempts + 1, prompt, slept⟩ : CallRec)]).length + r =
          calls.length + (r + 1) := by
      intro slept
      simp only [List.length_append, List.length_cons, List.length_nil]
      omega
    rw [completeJsonGo_succ]
    rcases hpv : pv (extract_json_text (respond (attempts + 1) prompt)) with obj | e | e
    · refine ⟨by simp [CJResult.calls], by simpa [CJResult.calls] using hstepOk none, ?_⟩
      intro msg cs h
      simp at h
    · have hlast' : ∀ lastc,
          (calls ++ [(⟨attempts + 1, prompt, none⟩ : CallRec)]).getLast? = some lastc →
          lastc.attemptNo = attempts + 1 ∧
          ((prompt = lastc.prompt ∧ lastc.sleptFor = none) ∨
           (prompt = lastc.prompt ++ jsonOnlyDirective ∧
            lastc.sleptFor = some ((3 / 4 : ℚ) * lastc.attemptNo))) ∧
          recordedError respond pv lastc
            (some (decodeFailMsg e (extract_json_text (respond (attempts + 1) prompt)))) := by
        intro lastc hl
        rw [List.getLast?_concat] at hl
        injection hl with hl
        subst hl
        exact ⟨rfl, Or.inl ⟨rfl, rfl⟩, Or.inl ⟨e, hpv, rfl⟩⟩
      obtain ⟨l1, l2, l3⟩ := ih (attempts + 1) prompt _ _ (hstepOk none) hlast'
      rw [hlen none] at l1
      refine ⟨l1, l2, ?_⟩
      intro msg cs h
      obtain ⟨e1, e2⟩ := l3 msg cs h
      rw [hlen none] at e1
      exact ⟨e1, e2⟩
    · have hlast' : ∀ lastc,
          (calls ++ [(⟨attempts + 1, prompt,
              some ((3 / 4 : ℚ) * ((attempts + 1 : ℕ) : ℚ))⟩ : CallRec)]).getLast? = some lastc →
          lastc.attemptNo = attempts + 1 ∧
          ((prompt ++ jsonOnlyDirective = lastc.prompt ∧ lastc.sleptFor = none) ∨
           (prompt ++ jsonOnlyDirective = lastc.prompt ++ jsonOnlyDirective ∧
            lastc.sleptFor = some ((3 / 4 : ℚ) * lastc.attemptNo))) ∧
          recordedError respond pv lastc
            (some (schemaFailMsg e (extract_json_text (respond (attempts + 1) prompt)))) := by
        intro lastc hl
        rw [List.getLast?_concat] at hl
        injection hl with hl
        subst hl
        refine ⟨rfl, Or.inr ⟨rfl, rfl⟩, Or.inr ⟨e, hpv, rfl⟩⟩
      obtain ⟨l1, l2, l3⟩ := ih (attempts + 1) (prompt ++ jsonOnlyDirective) _ _
        (hstepOk _) hlast'
      rw [hlen _] at l1
      refine ⟨l1, l2, ?_⟩
      intro msg cs h
      obtain ⟨e1, e2⟩ := l3 msg cs h
      rw [hlen _] at e1
      exact ⟨e1, e2⟩

/-- C4 amended: the Generic Field Extractor with retry budget N makes at most
N+1 oracle calls; between consecutive calls, after a *schema-validation*
failure the instruction is tightened with the JSON-only directive and an
increasing backoff `0.75·attempt` is slept, while after a *JSON parse*
failure the loop retries immediately with the prompt unchanged and no sleep;
and exhausting the budget fails with an error carrying the last
parse/validation error and a truncated snippet of the last raw output. -/
theorem complete_json_retry_behavior (respond : Nat → String → String)
    (pv : String → ParseValidateOutcome) (clientMaxRetries : Nat)
    (maxRetries : Option Nat) (userPrompt : String) :
    (complete_json respond pv clientMaxRetries maxRetries userPrompt).calls.length ≤
      maxRetries.getD clientMaxRetries + 1 ∧
    (complete_json respond pv clientMaxRetries maxRetries userPrompt).calls.Chain'
      retryStep ∧
    (∀ msg cs,
      complete_json respond pv clientMaxRetries maxRetries userPrompt = .err msg cs →
        cs.length = maxRetries.getD clientMaxRetries + 1 ∧
        ∀ lastc, cs.getLast? = some lastc → lastAttemptError respond pv lastc msg) := by
  have h := completeJsonGo_spec respond pv (maxRetries.getD clientMaxRetries + 1) 0
    userPrompt none [] (List.chain'_nil) (by intro lastc hl; cases hl)
  simpa [complete_json] using h

set_option maxRecDepth 4000 in
/-- Witness for C4's amended theorem: its exhaustion hypothesis discharged on
the concrete budget-1 run. -/
theorem complete_json_retry_behavior_witness :
    complete_json (fun _ _ => "not json")
        (fun _ => .jsonDecodeError "Expecting value: line 1 column 1 (char 0)")
        4 (some 1) "p" =
      .err ("LLM failed to produce valid JSON after retries: JSON parsing failed: " ++
            "Expecting value: line 1 column 1 (char 0) | Raw content snippet " ++
            "(500 chars): \"not json\"")
        [⟨1, "p", none⟩, ⟨2, "p", none⟩] ∧
    ([(⟨1, "p", none⟩ : CallRec), ⟨2, "p", none⟩].length = (some 1).getD 4 + 1 ∧
      ∀ lastc, [(⟨1, "p", none⟩ : CallRec), ⟨2, "p", none⟩].getLast? = some lastc →
        lastAttemptError (fun _ _ => "not json")
          (fun _ => .jsonDecodeError "Expecting value: line 1 column 1 (char 0)") lastc
          ("LLM failed to produce valid JSON after retries: JSON parsing failed: " ++
            "Expecting value: line 1 column 1 (char 0) | Raw content snippet " ++
            "(500 chars): \"not json\"")) := by
  have h : complete_json (fun _ _ => "not json")
      (fun _ => .jsonDecodeError "Expecting value: line 1 column 1 (char 0)")
      4 (some 1) "p" =
      .err ("LLM failed to produce valid JSON after retries: JSON parsing failed: " ++
            "Expecting value: line 1 column 1 (char 0) | Raw content snippet " ++
            "(500 chars): \"not json\"")
        [⟨1, "p", none⟩, ⟨2, "p", none⟩] := by decide
  exact ⟨h, (complete_json_retry_behavior (fun _ _ => "not json")
    (fun _ => .jsonDecodeError "Expecting value: line 1 column 1 (char 0)")
    4 (some 1) "p").2.2 _ _ h⟩

/-! ## Tier fallback chain (claim C1) -/

/-- C1: the Tier 2 heuristic runs iff Tier 1 (oracle indices mapped to
hrefs) produced zero raw URLs; given that, the Tier 3 ATS-board re-scrape
runs iff Tier 2's absolutized output is also empty; and on a Source page
whose anchors contain a known ATS-board link but match no direct job-keyword
heuristic, only Tier 3 produces the candidates (the selection result is
exactly the absolutized board-page heuristic output). -/
theorem tier_fallback_chain :
    (∀ (anchors : List Anchor) (indices : List Int) (url : String)
        (bf : String → Except String (List Anchor)),
      (selectCandidates anchors indices url bf).tier2Ran = true ↔
        tier1RawUrls anchors indices = []) ∧
    (∀ (anchors : List Anchor) (indices : List Int) (url : String)
        (bf : String → Except String (List Anchor)),
      tier1RawUrls anchors indices = [] →
        ((selectCandidates anchors indices url bf).tier3Ran = true ↔
          absolutize_and_dedupe_urls (tier2Heuristic anchors) url = [])) ∧
    (∀ (anchors : List Anchor) (indices : List Int) (url : String)
        (bf : String → Except String (List Anchor))
        (boardAnchors : List Anchor) (fb : String) (rest : List String),
      tier1RawUrls anchors indices = [] →
      tier2Heuristic anchors = [] →
      tier3BoardLinks anchors url = fb :: rest →
      bf fb = .ok boardAnchors →
        (selectCandidates anchors indices url bf).tier3Ran = true ∧
        (selectCandidates anchors indices url bf).jobUrls =
          absolutize_and_dedupe_urls (tier3BoardRaw (boardAnchors.take 200)) fb) := by
  refine ⟨?_, ?_, ?_⟩
  · intro anchors indices url bf
    simp [selectCandidates, List.isEmpty_iff]
  · intro anchors indices url bf h1
    rcases hh : tier2Heuristic anchors with _ | ⟨h, hs⟩
    · simp [selectCandidates, h1, hh, absolutize_and_dedupe_urls, absolutizeAux,
        List.isEmpty_iff]
    · simp [selectCandidates, h1, hh, List.isEmpty_iff]
  · intro anchors indices url bf boardAnchors fb rest h1 h2 h3 h4
    simp [selectCandidates, h1, h2, h3, h4, absolutize_and_dedupe_urls, absolutizeAux,
      List.isEmpty_iff]

/-- Witness for C1: a Source page with a single board link carrying a query
string (so it matches no Tier 2 keyword heuristic) and an empty oracle index
set; only Tier 3 yields the candidate. -/
theorem tier_fallback_chain_witness :
    tier1RawUrls [⟨"https://boards.greenhouse.io/acme?page=2", ""⟩] [] = [] ∧
    tier2Heuristic [⟨"https://boards.greenhouse.io/acme?page=2", ""⟩] = [] ∧
    tier3BoardLinks [⟨"https://boards.greenhouse.io/acme?page=2", ""⟩]
        "https://example.com/careers" =
      "https://boards.greenhouse.io/acme?page=2" :: [] ∧
    (selectCandidates [⟨"https://boards.greenhouse.io/acme?page=2", ""⟩] []
          "https://example.com/careers"
          (fun _ => .ok [⟨"/acme/jobs/1", "Apply now"⟩])).tier3Ran = true ∧
    (selectCandidates [⟨"https://boards.greenhouse.io/acme?page=2", ""⟩] []
          "https://example.com/careers"
          (fun _ => .ok [⟨"/acme/jobs/1", "Apply now"⟩])).jobUrls =
      absolutize_and_dedupe_urls
        (tier3BoardRaw (([⟨"/acme/jobs/1", "Apply now"⟩] : List Anchor).take 200))
        "https://boards.greenhouse.io/acme?page=2" := by
  refine ⟨by decide, by decide, by decide, ?_⟩
  exact tier_fallback_chain.2.2 _ [] "https://example.com/careers" _ _
    "https://boards.greenhouse.io/acme?page=2" [] (by decide) (by decide) (by decide) rfl

/-! ## Dedup idempotence (claim C2) -/

theorem filter_fingerprint_nil {c : List CacheRecord} {fp : String}
    (h : is_fingerprint_seen c fp = false) :
    c.filter (fun r => r.fingerprint == some fp) = [] := by
  simp only [is_fingerprint_seen, List.any_eq_false] at h
  rw [List.filter_eq_nil_iff]
  intro a ha
  simpa using h a ha

/-- C2: processing the same candidate URL twice (identical extracted fields,
fresh fingerprint) writes exactly one CacheRecord. The first pass returns the
row and inserts the record; on the second pass `is_fingerprint_seen` is true,
`duplicates` is incremented by one, no record is written, and no row is
returned. -/
theorem dedup_idempotent (env : JobEnv) (override : Option String) (ce : Bool)
    (st : PipeState) (jobUrl : String) (f0 : JobFields)
    (canonical pageHtml : String) (pf : JobFields) (fp : String)
    (hpf : pf = postprocess_fields f0 override pageHtml jobUrl canonical)
    (hfp : fp = fingerprint canonical (pf.title.getD "") (pf.company_name.getD ""))
    (hext : extractJobFields env jobUrl = .ok (f0, canonical, pageHtml))
    (hfresh : is_fingerprint_seen st.cache fp = false) :
    (process_job env false override ce st jobUrl).2 = some (to_sheet_row pf) ∧
    (process_job env false override ce st jobUrl).1.cache =
      mark_job_seen st.cache jobUrl (some canonical) pf.title pf.company_name (some fp) ∧
    ((process_job env false override ce st jobUrl).1.cache.filter
        (fun r => r.fingerprint == some fp)).length = 1 ∧
    (process_job env false override ce st jobUrl).1.totals.duplicates =
      st.totals.duplicates ∧
    is_fingerprint_seen (process_job env false override ce st jobUrl).1.cache fp = true ∧
    (process_job env false override ce
        (process_job env false override ce st jobUrl).1 jobUrl).2 = none ∧
    (process_job env false override ce
        (process_job env false override ce st jobUrl).1 jobUrl).1.cache =
      (process_job env false override ce st jobUrl).1.cache ∧
    (process_job env false override ce
        (process_job env false override ce st jobUrl).1 jobUrl).1.totals.duplicates =
      (process_job env false override ce st jobUrl).1.totals.duplicates + 1 ∧
    (process_job env false override ce
        (process_job env false override ce st jobUrl).1 jobUrl).1.totals.errors =
      (process_job env false override ce st jobUrl).1.totals.errors := by
  have hA : process_job env false override ce st jobUrl =
      ({ st with
          cache :=
            mark_job_seen st.cache jobUrl (some canonical) pf.title
              pf.company_name (some fp) },
        some (to_sheet_row pf)) := by
    simp [process_job, hext, ← hpf, ← hfp, hfresh]
  have hseen2 : is_fingerprint_seen
      (mark_job_seen st.cache jobUrl (some canonical) pf.title pf.company_name (some fp))
      fp = true := by
    simp [is_fingerprint_seen, mark_job_seen]
  have hB : process_job env false override ce
      ({ st with
          cache :=
            mark_job_seen st.cache jobUrl (some canonical) pf.title
              pf.company_name (some fp) } : PipeState) jobUrl =
      ({ st with
          cache :=
            mark_job_seen st.cache jobUrl (some canonical) pf.title
              pf.company_name (some fp)
          totals := { st.totals with duplicates := st.totals.duplicates + 1 } },
        none) := by
    simp [process_job, hext, ← hpf, ← hfp, hseen2]
  rw [hA]
  refine ⟨rfl, rfl, ?_, rfl, hseen2, ?_, ?_, ?_, ?_⟩
  · have hnil : (st.cache.filter (fun r => r.url != jobUrl)).filter
        (fun r => r.fingerprint == some fp) = [] := by
      rw [List.filter_eq_nil_iff]
      intro a ha
      have ha' : a ∈ st.cache := List.mem_of_mem_filter ha
      have h := filter_fingerprint_nil hfresh
      rw [List.filter_eq_nil_iff] at h
      exact h a ha'
    simp [mark_job_seen, hnil]
  · rw [hB]
  · rw [hB]
  · rw [hB]
  · rw [hB]

/-- Witness for C2 on a concrete environment and an empty cache: both
hypotheses hold and the two passes behave as the theorem states. -/
theorem dedup_idempotent_witness :
    extractJobFields
        ⟨fun _ => false, fun _ => .error "e",
         fun _ => .ok ⟨"", some "https://x.example/j"⟩,
         fun _ _ => .ok ⟨some "Engineer", some "Acme", some "NYC", some false,
           some "Full Time", some "d", none, none, some "https://x.example/apply"⟩⟩
        "https://x.example/j" =
      .ok (⟨some "Engineer", some "Acme", some "NYC", some false, some "Full Time",
            some "d", none, none, some "https://x.example/apply"⟩,
           "https://x.example/j", "") ∧
    is_fingerprint_seen ([] : List CacheRecord)
        (fingerprint "https://x.example/j"
          ((postprocess_fields
              ⟨some "Engineer", some "Acme", some "NYC", some false, some "Full Time",
               some "d", none, none, some "https://x.example/apply"⟩
              none "" "https://x.example/j" "https://x.example/j").title.getD "")
          ((postprocess_fields
              ⟨some "Engineer", some "Acme", some "NYC", some false, some "Full Time",
               some "d", none, none, some "https://x.example/apply"⟩
              none "" "https://x.example/j" "https://x.example/j").company_name.getD ""))
      = false ∧
    (process_job
        ⟨fun _ => false, fun _ => .error "e",
         fun _ => .ok ⟨"", some "https://x.example/j"⟩,
         fun _ _ => .ok ⟨some "Engineer", some "Acme", some "NYC", some false,
           some "Full Time", some "d", none, none, some "https://x.example/apply"⟩⟩
        false none true ⟨[], ⟨0, 0, 0, 0, 0⟩, []⟩ "https://x.example/j").2 =
      some (to_sheet_row
        (postprocess_fields
          ⟨some "Engineer", some "Acme", some "NYC", some false, some "Full Time",
           some "d", none, none, some "https://x.example/apply"⟩
          none "" "https://x.example/j" "https://x.example/j")) := by
  refine ⟨rfl, rfl, ?_⟩
  exact (dedup_idempotent
    ⟨fun _ => false, fun _ => .error "e",
     fun _ => .ok ⟨"", some "https://x.example/j"⟩,
     fun _ _ => .ok ⟨some "Engineer", some "Acme", some "NYC", some false,
       some "Full Time", some "d", none, none, some "https://x.example/apply"⟩⟩
    none true ⟨[], ⟨0, 0, 0, 0, 0⟩, []⟩ "https://x.example/j"
    ⟨some "Engineer", some "Acme", some "NYC", some false, some "Full Time",
     some "d", none, none, some "https://x.example/apply"⟩
    "https://x.example/j" "" _ _ rfl rfl rfl rfl).1

/-! ## Worker isolation (claim C3) -/

/-- One worker's effect on the shared state: it depends on the cache only,
adds fixed deltas to `duplicates`/`errors`, appends job-scoped error entries,
and leaves the other counters untouched. -/
theorem process_job_shape (env : JobEnv) (r : Bool) (ov : Option String) (ce : Bool)
    (u : String) (c : List CacheRecord) :
    ∃ (c2 : List CacheRecord) (dd de : Nat) (dlog : List ErrorEntry)
      (res : Option (List Cell)),
      (∀ e ∈ dlog, e.scope = ErrorScope.job ∧ e.url = u) ∧
      ∀ (t : RunTotals) (L : List ErrorEntry),
        process_job env r ov ce ⟨c, t, L⟩ u =
          (⟨c2, { t with duplicates := t.duplicates + dd, errors := t.errors + de },
            L ++ dlog⟩, res) := by
  by_cases hseen : (r && is_job_seen c u) = true
  · exact ⟨c, 0, 0, [], none, by simp, fun t L => by simp [process_job, hseen]⟩
  · rcases hext : extractJobFields env u with e | ⟨f0, canonical, pageHtml⟩
    · refine ⟨c, 0, 1, if ce then [⟨ErrorScope.job, u, e⟩] else [], none, ?_, ?_⟩
      · intro x hx
        split at hx
        · simp at hx
          simp [hx]
        · simp at hx
      · intro t L
        simp only [process_job, hseen, Bool.false_eq_true, if_false, hext]
        split <;> simp
    · by_cases hfp : is_fingerprint_seen c
          (fingerprint canonical
            ((postprocess_fields f0 ov pageHtml u canonical).title.getD "")
            ((postprocess_fields f0 ov pageHtml u canonical).company_name.getD "")) = true
      · exact ⟨c, 1, 0, [], none, by simp,
          fun t L => by simp [process_job, hseen, hext, hfp]⟩
      · refine ⟨mark_job_seen c u (some canonical)
            (postprocess_fields f0 ov pageHtml u canonical).title
            (postprocess_fields f0 ov pageHtml u canonical).company_name
            (some (fingerprint canonical
              ((postprocess_fields f0 ov pageHtml u canonical).title.getD "")
              ((postprocess_fields f0 ov pageHtml u canonical).company_name.getD ""))),
          0, 0, [], some (to_sheet_row (postprocess_fields f0 ov pageHtml u canonical)),
          by simp, fun t L => by simp [process_job, hseen, hext, hfp]⟩

/-- Batch-level version of `process_job_shape`. -/
theorem runBatch_shape (env : JobEnv) (r : Bool) (ov : Option String) (ce : Bool) :
    ∀ (us : List String) (c : List CacheRecord),
    ∃ (c2 : List CacheRecord) (dd de : Nat) (dlog : List ErrorEntry)
      (results : List (Option (List Cell))),
      (∀ e ∈ dlog, e.scope = ErrorScope.job) ∧
      ∀ (t : RunTotals) (L : List ErrorEntry),
        runBatch env r ov ce ⟨c, t, L⟩ us =
          (⟨c2, { t with duplicates := t.duplicates + dd, errors := t.errors + de },
            L ++ dlog⟩, results) := by
  intro us
  induction us with
  | nil =>
    intro c
    exact ⟨c, 0, 0, [], [], by simp, fun t L => by simp [runBatch]⟩
  | cons u us ih =>
    intro c
    obtain ⟨c2, dd, de, dlog, res, hscope, hstep⟩ := process_job_shape env r ov ce u c
    obtain ⟨c3, dd', de', dlog', res', hscope', hbatch⟩ := ih c2
    refine ⟨c3, dd + dd', de + de', dlog ++ dlog', res :: res', ?_, ?_⟩
    · intro e he
      rcases List.mem_append.mp he with h | h
      · exact (hscope e h).1
      · exact hscope' e h
    · intro t L
      have h1 := hstep t L
      have h2 := hbatch { t with duplicates := t.duplicates + dd, errors := t.errors + de }
        (L ++ dlog)
      simp only [runBatch, h1, h2]
      simp [Nat.add_assoc]

/-- C3: a candidate whose pipeline raises at any step is isolated at the
candidate boundary. Inserting a failing candidate `bad` into a batch leaves
the final cache and `duplicates` exactly as in the run without it, increments
`errors` by one, appends an ErrorEntry with scope `"job"` and the candidate's
URL, contributes `none` at the candidate's position in the result list, and
leaves the output rows identical — every sibling still completes and appears. -/
theorem worker_isolation (env : JobEnv) (ov : Option String) (st : PipeState)
    (xs ys : List String) (bad m : String)
    (hbad : extractJobFields env bad = .error m) :
    (runBatch env false ov true st (xs ++ bad :: ys)).1.cache =
      (runBatch env false ov true st (xs ++ ys)).1.cache ∧
    (runBatch env false ov true st (xs ++ bad :: ys)).1.totals.duplicates =
      (runBatch env false ov true st (xs ++ ys)).1.totals.duplicates ∧
    (runBatch env false ov true st (xs ++ bad :: ys)).1.totals.errors =
      (runBatch env false ov true st (xs ++ ys)).1.totals.errors + 1 ∧
    (⟨ErrorScope.job, bad, m⟩ : ErrorEntry) ∈
      (runBatch env false ov true st (xs ++ bad :: ys)).1.errorLog ∧
    (runBatch env false ov true st (xs ++ bad :: ys)).2 =
      (runBatch env false ov true st (xs ++ ys)).2.take xs.length ++
        none :: (runBatch env false ov true st (xs ++ ys)).2.drop xs.length ∧
    (runBatch env false ov true st (xs ++ bad :: ys)).2.filterMap id =
      (runBatch env false ov true st (xs ++ ys)).2.filterMap id := by
  induction xs generalizing st with
  | nil =>
    obtain ⟨cache, totals, errorLog⟩ := st
    have hb : process_job env false ov true ⟨cache, totals, errorLog⟩ bad =
        (⟨cache, { totals with errors := totals.errors + 1 },
          errorLog ++ [⟨ErrorScope.job, bad, m⟩]⟩, none) := by
      simp [process_job, hbad]
    obtain ⟨c2, dd, de, dlog, res, hscope, hbatch⟩ :=
      runBatch_shape env false ov true ys cache
    have hfull := hbatch { totals with errors := totals.errors + 1 }
      (errorLog ++ [⟨ErrorScope.job, bad, m⟩])
    have hsib := hbatch totals errorLog
    simp only [List.nil_append, runBatch, hb, hfull, hsib]
    refine ⟨by simp, by simp, ?_, by simp, by simp, by simp⟩
    omega
  | cons x xs ih =>
    rcases hx : process_job env false ov true st x with ⟨st1, r0⟩
    have hih := ih st1
    simp only [List.cons_append, runBatch, hx]
    rcases hfull : runBatch env false ov true st1 (xs ++ bad :: ys) with ⟨stF, resF⟩
    rcases hsib : runBatch env false ov true st1 (xs ++ ys) with ⟨stS, resS⟩
    rw [hfull, hsib] at hih
    obtain ⟨i1, i2, i3, i4, i5, i6⟩ := hih
    dsimp only at i1 i2 i3 i4 i5 i6
    refine ⟨i1, i2, i3, i4, ?_, ?_⟩
    · simp only [List.length_cons, List.take_succ_cons, List.drop_succ_cons,
        List.cons_append]
      rw [i5]
    · simp only [List.filterMap_cons]
      rcases r0 with _ | row
      · simpa using i6
      · simpa using i6

/-- Witness for C3: in a three-candidate batch whose middle candidate's fetch
raises, the errors counter rises by exactly one relative to the sibling-only
batch, the job-scoped entry is recorded, and the sibling rows are unchanged. -/
theorem worker_isolation_witness :
    extractJobFields
        ⟨fun _ => false, fun _ => .error "e",
         fun u => if u == "https://g.example/x" then .error "boom" else .ok ⟨"", none⟩,
         fun u _ => .ok ⟨some u, some "ACME", none, some false, none, none, none, none,
           some "https://g.example/apply"⟩⟩
        "https://g.example/x" = .error "boom" ∧
    (runBatch
        ⟨fun _ => false, fun _ => .error "e",
         fun u => if u == "https://g.example/x" then .error "boom" else .ok ⟨"", none⟩,
         fun u _ => .ok ⟨some u, some "ACME", none, some false, none, none, none, none,
           some "https://g.example/apply"⟩⟩
        false none true ⟨[], ⟨0, 0, 0, 0, 0⟩, []⟩
        (["https://g.example/a"] ++ "https://g.example/x" ::
          ["https://g.example/b"])).1.totals.errors =
      (runBatch
        ⟨fun _ => false, fun _ => .error "e",
         fun u => if u == "https://g.example/x" then .error "boom" else .ok ⟨"", none⟩,
         fun u _ => .ok ⟨some u, some "ACME", none, some false, none, none, none, none,
           some "https://g.example/apply"⟩⟩
        false none true ⟨[], ⟨0, 0, 0, 0, 0⟩, []⟩
        (["https://g.example/a"] ++ ["https://g.example/b"])).1.totals.errors + 1 ∧
    (⟨ErrorScope.job, "https://g.example/x", "boom"⟩ : ErrorEntry) ∈
      (runBatch
        ⟨fun _ => false, fun _ => .error "e",
         fun u => if u == "https://g.example/x" then .error "boom" else .ok ⟨"", none⟩,
         fun u _ => .ok ⟨some u, some "ACME", none, some false, none, none, none, none,
           some "https://g.example/apply"⟩⟩
        false none true ⟨[], ⟨0, 0, 0, 0, 0⟩, []⟩
        (["https://g.example/a"] ++ "https://g.example/x" ::
          ["https://g.example/b"])).1.errorLog := by
  have hbad : extractJobFields
      ⟨fun _ => false, fun _ => .error "e",
       fun u => if u == "https://g.example/x" then .error "boom" else .ok ⟨"", none⟩,
       fun u _ => .ok ⟨some u, some "ACME", none, some false, none, none, none, none,
         some "https://g.example/apply"⟩⟩
      "https://g.example/x" = .error "boom" := by
    rfl
  have h := worker_isolation
    ⟨fun _ => false, fun _ => .error "e",
     fun u => if u == "https://g.example/x" then .error "boom" else .ok ⟨"", none⟩,
     fun u _ => .ok ⟨some u, some "ACME", none, some false, none, none, none, none,
       some "https://g.example/apply"⟩⟩
    none ⟨[], ⟨0, 0, 0, 0, 0⟩, []⟩ ["https://g.example/a"] ["https://g.example/b"]
    "https://g.example/x" "boom" hbad
  exact ⟨hbad, h.2.2.1, h.2.2.2.1⟩

/-! ## Per-source accounting (claim C8) -/

/-- C8: per Source, `careers_processed` is incremented exactly once and only
on the success path — on a Source-level failure it is unchanged, `errors`
grows, and the last recorded entry is a `"careers"`-scoped ErrorEntry for
that Source (job-scoped entries from workers may precede it); and once the
fetch and oracle selection succeed, `job_urls_found` accumulates the number
of candidates discovered for that Source *before* the max-jobs truncation. -/
theorem source_totals (env : SourceEnv) (r : Bool) (ov : Option String)
    (mj : Option Nat) (st : PipeState) (url : String) :
    (((processSource env r ov true mj st url).totals.careers_processed =
        st.totals.careers_processed + 1 ∧
      ∀ e ∈ (processSource env r ov true mj st url).errorLog,
        e ∈ st.errorLog ∨ e.scope = ErrorScope.job) ∨
     ((processSource env r ov true mj st url).totals.careers_processed =
        st.totals.careers_processed ∧
      st.totals.errors + 1 ≤ (processSource env r ov true mj st url).totals.errors ∧
      ∃ msg, (processSource env r ov true mj st url).errorLog.getLast? =
        some ⟨ErrorScope.careers, url, msg⟩)) ∧
    (∀ (anchors : List Anchor) (indices : List Int),
      env.fetchCareers url = .ok anchors →
      env.oracleIndices url (anchors.take 150) = .ok indices →
      (processSource env r ov true mj st url).totals.job_urls_found =
        st.totals.job_urls_found +
          (selectCandidates (anchors.take 150) indices url env.boardFetch).jobUrls.length) := by
  obtain ⟨cache, totals, errorLog⟩ := st
  rcases hf : env.fetchCareers url with e | anchors
  · constructor
    · right
      simp only [processSource, hf, careersFail]
      refine ⟨by trivial, by simp, e, ?_⟩
      simp [List.getLast?_concat]
    · intro anchors indices hf' ho
      simp at hf'
  · rcases ho : env.oracleIndices url (anchors.take 150) with e | indices
    · constructor
      · right
        simp only [processSource, hf, ho, careersFail]
        refine ⟨by trivial, by simp, e, ?_⟩
        simp [List.getLast?_concat]
      · intro anchors' indices hf' ho'
        injection hf' with hf'
        subst hf'
        rw [ho] at ho'
        cases ho'
    · obtain ⟨c2, dd, de, dlog, results, hscope, hbatch⟩ :=
        runBatch_shape env.jobEnv r ov true
          (match mj with
           | none => (selectCandidates (anchors.take 150) indices url env.boardFetch).jobUrls
           | some m =>
              ((selectCandidates (anchors.take 150) indices url env.boardFetch).jobUrls.take m))
          cache
      have hrun : processSource env r ov true mj ⟨cache, totals, errorLog⟩ url =
          (let stB : PipeState :=
            ⟨c2,
             { totals with
                job_urls_found := totals.job_urls_found +
                  (selectCandidates (anchors.take 150) indices url
                    env.boardFetch).jobUrls.length
                duplicates := totals.duplicates + dd
                errors := totals.errors + de },
             errorLog ++ dlog⟩
           let rows := results.filterMap id
           if rows.isEmpty then
             { stB with totals :=
                { stB.totals with careers_processed := stB.totals.careers_processed + 1 } }
           else
             match env.sinkAppend rows with
             | .error e => careersFail true stB url e
             | .ok appended =>
                 { stB with totals :=
                    { stB.totals with
                        rows_appended := stB.totals.rows_appended + appended
                        careers_processed := stB.totals.careers_processed + 1 } }) := by
        simp only [processSource, hf, ho]
        rw [hbatch]
      rw [hrun]
      simp only []
      constructor
      · rcases hres : (results.filterMap id).isEmpty with _ | _
        · rcases hsink : env.sinkAppend (results.filterMap id) with e | appended
          · right
            simp only [hres, Bool.false_eq_true, if_false, hsink, careersFail]
            refine ⟨by trivial, by omega, e, ?_⟩
            simp [List.getLast?_concat]
          · left
            simp only [hres, Bool.false_eq_true, if_false, hsink]
            refine ⟨by trivial, ?_⟩
            intro x hx
            simp only [List.mem_append] at hx
            rcases hx with h | h
            · exact Or.inl h
            · exact Or.inr (hscope x h)
        · left
          simp only [hres, if_true]
          refine ⟨by trivial, ?_⟩
          intro x hx
          simp only [List.mem_append] at hx
          rcases hx with h | h
          · exact Or.inl h
          · exact Or.inr (hscope x h)
      · intro anchors' indices' hf' ho'
        injection hf' with hf'
        subst hf'
        rw [ho] at ho'
        injection ho' with ho'
        subst ho'
        rcases hres : (results.filterMap id).isEmpty with _ | _
        · rcases hsink : env.sinkAppend (results.filterMap id) with e | appended
          · simp [hres, hsink, careersFail]
          · simp [hres, hsink]
        · simp [hres]

/-- Witness for C8: a Source whose fetch and oracle selection succeed with no
anchors; the theorem's fetch/oracle hypotheses are discharged concretely. -/
theorem source_totals_witness :
    (⟨fun _ => .ok [], fun _ _ => .ok [], fun _ => .error "x",
      ⟨fun _ => false, fun _ => .error "a", fun _ => .error "b", fun _ _ => .error "c"⟩,
      fun _ => .ok 0⟩ : SourceEnv).fetchCareers "https://e.com/c" = .ok [] ∧
    (⟨fun _ => .ok [], fun _ _ => .ok [], fun _ => .error "x",
      ⟨fun _ => false, fun _ => .error "a", fun _ => .error "b", fun _ _ => .error "c"⟩,
      fun _ => .ok 0⟩ : SourceEnv).oracleIndices "https://e.com/c"
      (([] : List Anchor).take 150) = .ok [] ∧
    (processSource
        ⟨fun _ => .ok [], fun _ _ => .ok [], fun _ => .error "x",
         ⟨fun _ => false, fun _ => .error "a", fun _ => .error "b", fun _ _ => .error "c"⟩,
         fun _ => .ok 0⟩
        false none true none ⟨[], ⟨0, 0, 0, 0, 0⟩, []⟩
        "https://e.com/c").totals.job_urls_found =
      (⟨[], ⟨0, 0, 0, 0, 0⟩, []⟩ : PipeState).totals.job_urls_found +
        (selectCandidates (([] : List Anchor).take 150) [] "https://e.com/c"
          (fun _ => .error "x")).jobUrls.length :=
  ⟨rfl, rfl,
   (source_totals
      ⟨fun _ => .ok [], fun _ _ => .ok [], fun _ => .error "x",
       ⟨fun _ => false, fun _ => .error "a", fun _ => .error "b", fun _ _ => .error "c"⟩,
       fun _ => .ok 0⟩
      false none none ⟨[], ⟨0, 0, 0, 0, 0⟩, []⟩ "https://e.com/c").2 [] [] rfl rfl⟩

end Industrion
